import Mathlib

/-!
Verification of the wgsl-fns dependency resolution engine.

This file gives a shallow embedding, in Lean, of the core of the
`wgsl-fns` package:

* the dependency declaration parser (`parseDependencies`, modelling the
  JavaScript regular-expression scan
  `functionCode.match(/^\/\/!\s*requires\s+(.+)$/m)` followed by
  `.split(/\s+/).filter(dep => dep.length > 0)` in `src/dependencies.ts`);
* the function registry `wgslFns` (`src/functions.ts` together with the
  per-category source files), embedded as an association list from
  function name to WGSL source text;
* the recursive dependency resolver `resolveDependencies` /
  `resolveAllDependencies` (`src/dependencies.ts`), with the mutable
  JavaScript `Set` of visited names modelled by an explicit
  insertion-ordered list threaded through the computation, and with the
  unbounded recursion modelled by a fuel parameter (the development
  proves that the chosen fuel is never exhausted);
* the source assembler `getFns` (`src/index.ts`), which concatenates the
  resolved dependency list with the requested names, looks every name up
  in the registry (failing with an exception, modelled by `Except`, on
  the first unknown name), deduplicates identical source texts, and
  joins the emitted bodies with a blank-line separator.

The theorems at the end of the file settle the specification claims
about this engine.
-/

set_option maxRecDepth 20000

namespace Wgsl

/-! ## The dependency declaration parser

`src/dependencies.ts` extracts direct dependencies from a function's
source text with the JavaScript regular expression
`/^\/\/!\s*requires\s+(.+)$/m` (multiline flag, so `^` and `$` are
line anchors) and splits the capture on `/\s+/`, discarding empty
tokens.  The definitions below model that regular expression at the
character-list level.  All WGSL sources in the registry are ASCII, so
`\s` is modelled by the ASCII whitespace characters recognised by
JavaScript. -/

/-- Characters matched by the JavaScript `\s` class, restricted to the
ASCII range (the registry's source texts are ASCII). -/
def jsWs (c : Char) : Bool :=
  c = ' ' || c = '\t' || c = '\n' || c = '\r' || c = '\x0b' || c = '\x0c'

/-- Consume an expected literal prefix, returning the remainder, or
`none` when the input does not start with that literal. -/
def dropLit : List Char → List Char → Option (List Char)
  | [], cs => some cs
  | _ :: _, [] => none
  | p :: ps, c :: cs => if c = p then dropLit ps cs else none

/-- Attempt the marker regular expression at one position of the input
(the position is a line start; the `m`-flag `^` anchor restricts match
attempts to such positions).  The match consumes `//!`, then `\s*`
(greedy; no backtracking is needed since the following mandatory
character `r` is not whitespace), then the literal `requires`, then
`\s+` and the capture `(.+)$`.  The capture is the run of
non-newline characters following the greedy whitespace run; when the
input ends inside that whitespace run the regex either matches with an
all-whitespace capture (which splits to no names) or fails with only
whitespace left to scan (where no later attempt can match), so that
case is modelled by an empty capture. -/
def matchMarkerAt (cs : List Char) : Option (List Char) :=
  match dropLit ['/', '/', '!'] cs with
  | none => none
  | some rest₁ =>
    match dropLit ['r', 'e', 'q', 'u', 'i', 'r', 'e', 's'] (rest₁.dropWhile jsWs) with
    | none => none
    | some rest₂ =>
      if jsWs (rest₂.headD 'x') then
        some ((rest₂.dropWhile jsWs).takeWhile (fun c => !(c = '\n')))
      else
        none

/-- Scan the input for the first (leftmost) line-start position where
the marker regular expression matches, returning its capture.  The
boolean records whether the current position is a line start. -/
def scanMarker : Bool → List Char → Option (List Char)
  | _, [] => none
  | atStart, c :: rest =>
    if atStart then
      match matchMarkerAt (c :: rest) with
      | some cap => some cap
      | none => scanMarker (c = '\n') rest
    else
      scanMarker (c = '\n') rest

/-- Split a character list into maximal runs of non-whitespace
characters, modelling `.split(/\s+/).filter(dep => dep.length > 0)`. -/
def splitWsAux : List Char → List Char → List String
  | [], cur => if cur.isEmpty then [] else [String.mk cur.reverse]
  | c :: cs, cur =>
    if jsWs c then
      if cur.isEmpty then splitWsAux cs [] else String.mk cur.reverse :: splitWsAux cs []
    else
      splitWsAux cs (c :: cur)

/-- Parse the dependency names declared by a magic comment in a WGSL
source text: `parseDependencies` of `src/dependencies.ts`. -/
def parseDependencies (functionCode : String) : List String :=
  match scanMarker true functionCode.data with
  | none => []
  | some cap => splitWsAux cap []

/-! ### The parser described by the specification

The specification (§4.2) describes the parser in line-based terms:
scan the source text for the first line consisting of the comment
prefix, the declaration keyword, and a whitespace-separated list of
names; return the names of that line, or the empty list when no such
line exists.  The following definitions transcribe those words; claim
C2 compares them against `parseDependencies` above on every registry
entry. -/

/-- Split a character list into its lines at newline characters. -/
def splitLines : List Char → List Char → List (List Char)
  | [], cur => [cur.reverse]
  | c :: cs, cur =>
    if c = '\n' then cur.reverse :: splitLines cs [] else splitLines cs (c :: cur)

/-- Modelled from the spec: a dependency-marker line is a comment-like
prefix `//!`, optional whitespace, the keyword `requires`, and then a
whitespace boundary (end of line or a whitespace character) followed by
the declared names. -/
def specMarkerLine (line : List Char) : Option (List Char) :=
  match dropLit ['/', '/', '!'] line with
  | none => none
  | some rest₁ =>
    match dropLit ['r', 'e', 'q', 'u', 'i', 'r', 'e', 's'] (rest₁.dropWhile jsWs) with
    | none => none
    | some rest₂ =>
      match rest₂ with
      | [] => some []
      | c :: _ => if jsWs c then some rest₂ else none

/-- Modelled from the spec (§4.2): the whitespace-separated list of
names on the first dependency-marker line of the source text, or the
empty list when no line of the text is a marker line. -/
def specParseDependencies (sourceText : String) : List String :=
  match (splitLines sourceText.data []).findSome? specMarkerLine with
  | none => []
  | some rest => splitWsAux rest []
/-! ## The function registry

The registry `wgslFns` of `src/functions.ts` maps each of the 110
function names to its WGSL source text.  It is embedded here as an
association list in the registry's declaration order.  A few source
files of the current revision are absent from the pack; the entries
reconstructed from adjacent revisions are marked `Modelled from the
spec:` in their doc comments.  Such entries declare no dependency
markers except where the repository's tests pin the marker down, so no
claim is sensitive to the reconstructed body texts. -/

/-- Source text of `elasticWave` (transcribed from src/math.ts). -/
def elasticWave : String :=
  "fn elasticWave(x: f32, amplitude: f32, frequency: f32, decay: f32, phase: f32) -> f32 \x7b\n  let d = max(0.001, decay);\n  let decayTerm = exp(-d * x);\n  let oscTerm = sin(frequency * x * 6.28318 + phase);\n  return amplitude * decayTerm * oscTerm;\n\x7d"

/-- Source text of `smoothStep` (transcribed from src/math.ts). -/
def smoothStep : String :=
  "fn smoothStep(edge0: f32, edge1: f32, x: f32) -> f32 \x7b\n  let t = clamp((x - edge0) / (edge1 - edge0), 0.0, 1.0);\n  return t * t * (3.0 - 2.0 * t);\n\x7d"

/-- Modelled from the spec: the current `src/math.ts` revision (which the registry of `src/functions.ts` imports `smoothStepVec2` from) is not in the pack; the body is a reconstruction. It declares no dependencies, and no claim depends on its body text beyond that. -/
def smoothStepVec2 : String :=
  "fn smoothStepVec2(edge0: vec2f, edge1: vec2f, x: vec2f) -> vec2f \x7b\n  let t = clamp((x - edge0) / (edge1 - edge0), vec2f(0.0), vec2f(1.0));\n  return t * t * (3.0 - 2.0 * t);\n\x7d"

/-- Source text of `rotate2D` (transcribed from src/math.ts). -/
def rotate2D : String :=
  "fn rotate2D(v: vec2<f32>, angle: f32) -> vec2<f32> \x7b\n  let c = cos(angle);\n  let s = sin(angle);\n  return vec2(v.x * c - v.y * s, v.x * s + v.y * c);\n\x7d"

/-- Source text of `exponentialRamp` (transcribed from src/math.ts). -/
def exponentialRamp : String :=
  "fn exponentialRamp(x: f32, base: f32, scale: f32, offset: f32) -> vec2<f32> \x7b\n  // Ensure base is positive and not 1 (which would make it linear)\n  let b = select(base, 2.71828, abs(base - 1.0) < 0.001);\n  \n  // Calculate the exponential function\n  let result = scale * pow(b, x) + offset;\n  \n  // Calculate the derivative\n  let derivative = scale * pow(b, x) * log(b);\n  \n  return vec2<f32>(result, derivative);\n\x7d"

/-- Source text of `logisticCurve` (transcribed from src/math.ts). -/
def logisticCurve : String :=
  "fn logisticCurve(x: f32, midpoint: f32, steepness: f32, minValue: f32, maxValue: f32) -> vec2<f32> \x7b\n  // Scale factor for steepness\n  let k = max(0.001, steepness);\n  \n  // Shift x relative to midpoint\n  let z = -k * (x - midpoint);\n  \n  // Calculate the exponent\n  let expTerm = exp(z);\n  \n  // Calculate the logistic function value\n  let logistic = 1.0 / (1.0 + expTerm);\n  \n  // Scale to min-max range\n  let range = maxValue - minValue;\n  let value = minValue + range * logistic;\n  \n  // Calculate the derivative\n  let derivative = range * k * expTerm / ((1.0 + expTerm) * (1.0 + expTerm));\n  \n  return vec2<f32>(value, derivative);\n\x7d"

/-- Source text of `stepSequence` (transcribed from src/math.ts). -/
def stepSequence : String :=
  "fn stepSequence(x: f32, steps: f32, smoothing: f32, minValue: f32, maxValue: f32) -> vec2<f32> \x7b\n  // Ensure at least 1 step and positive smoothing\n  let numSteps = max(1.0, floor(steps));\n  let smoothFactor = max(0.0, smoothing);\n  \n  // Normalize x to 0-1 range\n  let normalizedX = fract(x);\n  \n  // Calculate the size of each step\n  let stepSize = 1.0 / numSteps;\n  \n  // Calculate the current step (0 to numSteps-1)\n  let currentStep = floor(normalizedX * numSteps);\n  let nextStep = fract(currentStep + 1.0);\n  \n  // Calculate progress within the current step\n  let stepProgress = fract(normalizedX * numSteps);\n  \n  // Calculate the progress values for current and next steps\n  let currentStepValue = currentStep / (numSteps - 1.0);\n  \n  // Prepare next step value, handle the last step case\n  var nextStepValue: f32 = 0.0;\n  if (currentStep >= numSteps - 1.0) \x7b\n    nextStepValue = 1.0;\n  \x7d else \x7b\n    nextStepValue = nextStep / (numSteps - 1.0);\n  \x7d\n  \n  // Apply smoothing between steps if needed\n  var result: f32 = 0.0;\n  \n  if (smoothFactor > 0.0 && stepProgress > (1.0 - smoothFactor) && numSteps > 1.0) \x7b\n    // Calculate smoothing factor\n    let t = (stepProgress - (1.0 - smoothFactor)) / smoothFactor;\n    \n    // Smoothstep for better transition\n    let smoothT = t * t * (3.0 - 2.0 * t);\n    \n    // Interpolate between current and next step\n    result = mix(currentStepValue, nextStepValue, smoothT);\n  \x7d else \x7b\n    result = currentStepValue;\n  \x7d\n  \n  // Scale to min-max range\n  let range = maxValue - minValue;\n  let finalResult = minValue + result * range;\n  \n  return vec2<f32>(finalResult, currentStep);\n\x7d"

/-- Modelled from the spec: the current `src/math.ts` revision is not in the pack; the body is a reconstruction of the standard Taylor inverse square root helper. It declares no dependencies. -/
def taylorInvSqrt4 : String :=
  "fn taylorInvSqrt4(r: vec4f) -> vec4f \x7b\n    return 1.79284291400159 - 0.85373472095314 * r;\n\x7d"

/-- Source text of `noise2D` (transcribed from src/noise.ts). -/
def noise2D : String :=
  "//! requires hash22\nfn noise2D(p: vec2<f32>) -> f32 \x7b\n  let i = floor(p);\n  let f = fract(p);\n  let u = f * f * (3.0 - 2.0 * f);\n  return mix(\n    mix(dot(hash22(i + vec2<f32>(0.0, 0.0)), f - vec2<f32>(0.0, 0.0)),\n        dot(hash22(i + vec2<f32>(1.0, 0.0)), f - vec2<f32>(1.0, 0.0)), u.x),\n    mix(dot(hash22(i + vec2<f32>(0.0, 1.0)), f - vec2<f32>(0.0, 1.0)),\n        dot(hash22(i + vec2<f32>(1.0, 1.0)), f - vec2<f32>(1.0, 1.0)), u.x), u.y);\n\x7d"

/-- Source text of `hash22` (transcribed from src/noise.ts). -/
def hash22 : String :=
  "fn hash22(p: vec2<f32>) -> vec2<f32> \x7b\n  var p3 = fract(vec3<f32>(p.xyx) * vec3<f32>(0.1031, 0.1030, 0.0973));\n  p3 += dot(p3, p3.yzx + 33.33);\n  return fract((p3.xx + p3.yz) * p3.zy);\n\x7d"

/-- Source text of `fbm2D` (transcribed from src/noise.ts). -/
def fbm2D : String :=
  "//! requires noise2D\nfn fbm2D(p: vec2<f32>, octaves: i32) -> f32 \x7b\n  var value = 0.0;\n  var amplitude = 0.5;\n  var frequency = 1.0;\n  for (var i = 0; i < octaves; i++) \x7b\n    value += amplitude * noise2D(p * frequency);\n    amplitude *= 0.5;\n    frequency *= 2.0;\n  \x7d\n  return value;\n\x7d"

/-- Source text of `fbm3D` (transcribed from src/noise.ts). -/
def fbm3D : String :=
  "//! requires noise3D\n  fn fbm3D(x: vec3f, seed: f32) -> f32 \x7b\n    var p = x + seed;\n    var f = 0.0;\n    var w = 0.5;\n    for (var i = 0; i < 5; i++) \x7b\n      f += w * noise3D(p);\n      p *= 2.0;\n      w *= 0.5;\n    \x7d\n    return f;\n  \x7d\n"

/-- Source text of `hash1D` (transcribed from src/noise.ts). -/
def hash1D : String :=
  "fn hash1D(p: f32) -> f32 \x7b\n  // Convert to integer and apply bit manipulation\n  let x = bitcast<u32>(p + 123.456789);\n  var h = x;\n  \n  // Wang hash function\n  h = (h ^ 61u) ^ (h >> 16u);\n  h = h + (h << 3u);\n  h = h ^ (h >> 4u);\n  h = h * 0x27d4eb2du;\n  h = h ^ (h >> 15u);\n  \n  // Convert back to float and normalize\n  return f32(h) / 4294967296.0;\n\x7d"

/-- Source text of `hash31` (transcribed from src/noise.ts). -/
def hash31 : String :=
  "fn hash31(p: vec3<f32>) -> f32 \x7b\n  var p3 = fract(p * vec3<f32>(0.1031, 0.1030, 0.0973));\n  p3 += dot(p3, p3.yxz + 33.33);\n  return fract((p3.x + p3.y) * p3.z);\n\x7d"

/-- Source text of `hash3D` (transcribed from src/noise.ts). -/
def hash3D : String :=
  "fn hash3D(p: vec3<f32>) -> vec3<f32> \x7b\n  var p3 = fract(p * vec3<f32>(0.1031, 0.1030, 0.0973));\n  p3 += dot(p3, p3.yxz + 33.33);\n  return fract((p3.xxy + p3.yxx) * p3.zyx) * 2.0 - 1.0;\n\x7d"

/-- Source text of `noise3D` (transcribed from src/noise.ts). -/
def noise3D : String :=
  "//! requires hash31\nfn noise3D(x: vec3<f32>) -> f32 \x7b\n  let p = floor(x);\n  let f = fract(x);\n  \n  return mix(\n    mix(\n      mix(hash31(p), \n          hash31(p + vec3<f32>(1.0, 0.0, 0.0)), \n          f.x),\n      mix(hash31(p + vec3<f32>(0.0, 1.0, 0.0)), \n          hash31(p + vec3<f32>(1.0, 1.0, 0.0)), \n          f.x),\n      f.y),\n    mix(\n      mix(hash31(p + vec3<f32>(0.0, 0.0, 1.0)), \n          hash31(p + vec3<f32>(1.0, 0.0, 1.0)), \n          f.x),\n      mix(hash31(p + vec3<f32>(0.0, 1.0, 1.0)), \n          hash31(p + vec3<f32>(1.0, 1.0, 1.0)), \n          f.x),\n      f.y),\n    f.z);\n\x7d"

/-- Source text of `warpNoise3D` (transcribed from src/noise.ts). -/
def warpNoise3D : String :=
  "//! requires noise3D\nfn warpNoise3D(x: vec3<f32>, seedVal: f32) -> vec3<f32> \x7b\n  var p = x + seedVal;\n  var nx = 0.0;\n  var ny = 0.0;\n  var nz = 0.0;\n  var w = 0.5;\n  \n  for (var i = 0; i < 3; i++) \x7b\n    nx += w * noise3D(p);\n    ny += w * noise3D(p + vec3<f32>(13.5, 41.3, 17.8));\n    nz += w * noise3D(p + vec3<f32>(31.2, 23.7, 11.9));\n    p *= 2.0;\n    w *= 0.5;\n  \x7d\n  \n  return vec3<f32>(nx, ny, nz) * 2.0 - 1.0;\n\x7d"

/-- Source text of `pcg` (transcribed from src/noise.ts). -/
def pcg : String :=
  "fn pcg(n: u32) -> u32 \x7b\n    var h = n * 747796405u + 2891336453u;\n    h = ((h >> ((h >> 28u) + 4u)) ^ h) * 277803737u;\n    return (h >> 22u) ^ h;\n\x7d"

/-- Source text of `pcg2d` (transcribed from src/noise.ts). -/
def pcg2d : String :=
  "fn pcg2d(p: vec2u) -> vec2u \x7b\n    var v = p * 1664525u + 1013904223u;\n    v.x += v.y * 1664525u; v.y += v.x * 1664525u;\n    v ^= v >> vec2u(16u);\n    v.x += v.y * 1664525u; v.y += v.x * 1664525u;\n    v ^= v >> vec2u(16u);\n    return v;\n\x7d"

/-- Source text of `pcg3d` (transcribed from src/noise.ts). -/
def pcg3d : String :=
  "fn pcg3d(p: vec3u) -> vec3u \x7b\n    var v = p * 1664525u + 1013904223u;\n    v.x += v.y*v.z; v.y += v.z*v.x; v.z += v.x*v.y;\n    v ^= v >> vec3u(16u);\n    v.x += v.y*v.z; v.y += v.z*v.x; v.z += v.x*v.y;\n    return v;\n\x7d"

/-- Source text of `pcg4d` (transcribed from src/noise.ts). -/
def pcg4d : String :=
  "fn pcg4d(p: vec4u) -> vec4u \x7b\n    var v = p * 1664525u + 1013904223u;\n    v.x += v.y*v.w; v.y += v.z*v.x; v.z += v.x*v.y; v.w += v.y*v.z;\n    v ^= v >> vec4u(16u);\n    v.x += v.y*v.w; v.y += v.z*v.x; v.z += v.x*v.y; v.w += v.y*v.z;\n    return v;\n\x7d"

/-- Source text of `xxhash32` (transcribed from src/noise.ts). -/
def xxhash32 : String :=
  "fn xxhash32(n: u32) -> u32 \x7b\n    var h32 = n + 374761393u;\n    h32 = 668265263u * ((h32 << 17) | (h32 >> (32 - 17)));\n    h32 = 2246822519u * (h32 ^ (h32 >> 15));\n    h32 = 3266489917u * (h32 ^ (h32 >> 13));\n    return h32^(h32 >> 16);\n\x7d"

/-- Source text of `xxhash322d` (transcribed from src/noise.ts). -/
def xxhash322d : String :=
  "fn xxhash322d(p: vec2u) -> u32 \x7b\n    let p2 = 2246822519u; let p3 = 3266489917u;\n    let p4 = 668265263u; let p5 = 374761393u;\n    var h32 = p.y + p5 + p.x * p3;\n    h32 = p4 * ((h32 << 17) | (h32 >> (32 - 17)));\n    h32 = p2 * (h32^(h32 >> 15));\n    h32 = p3 * (h32^(h32 >> 13));\n    return h32^(h32 >> 16);\n\x7d"

/-- Source text of `xxhash323d` (transcribed from src/noise.ts). -/
def xxhash323d : String :=
  "fn xxhash323d(p: vec3u) -> u32 \x7b\n    let p2 = 2246822519u; let p3 = 3266489917u;\n    let p4 = 668265263u; let p5 = 374761393u;\n    var h32 =  p.z + p5 + p.x*p3;\n    h32 = p4 * ((h32 << 17) | (h32 >> (32 - 17)));\n    h32 += p.y * p3;\n    h32 = p4 * ((h32 << 17) | (h32 >> (32 - 17)));\n    h32 = p2 * (h32^(h32 >> 15));\n    h32 = p3 * (h32^(h32 >> 13));\n    return h32^(h32 >> 16);\n\x7d"

/-- Source text of `xxhash324d` (transcribed from src/noise.ts). -/
def xxhash324d : String :=
  "fn xxhash324d(p: vec4u) -> u32 \x7b\n    let p2 = 2246822519u; let p3 = 3266489917u;\n    let p4 = 668265263u; let p5 = 374761393u;\n    var h32 = p.w + p5 + p.x * p3;\n    h32 = p4 * ((h32 << 17) | (h32 >> (32 - 17)));\n    h32 += p.y * p3;\n    h32 = p4 * ((h32 << 17) | (h32 >> (32 - 17)));\n    h32 += p.z  * p3;\n    h32 = p4 * ((h32 << 17) | (h32 >> (32 - 17)));\n    h32 = p2 * (h32^(h32 >> 15));\n    h32 = p3 * (h32^(h32 >> 13));\n    return h32 ^ (h32 >> 16);\n\x7d"

/-- Source text of `rand11Sin` (transcribed from src/noise.ts). -/
def rand11Sin : String :=
  "fn rand11(n: f32) -> f32 \x7b \n    return fract(sin(n) * 43758.5453123); \n\x7d"

/-- Source text of `rand22Sin` (transcribed from src/noise.ts). -/
def rand22Sin : String :=
  "fn rand22(n: vec2f) -> f32 \x7b \n    return fract(sin(dot(n, vec2f(12.9898, 4.1414))) * 43758.5453); \n\x7d"

/-- Source text of `valueNoise1D` (transcribed from src/noise.ts). -/
def valueNoise1D : String :=
  "//! requires rand11Sin\nfn noise(p: f32) -> f32 \x7b\n    let fl = floor(p);\n    return mix(rand11(fl), rand11(fl + 1.), fract(p));\n\x7d"

/-- Source text of `valueNoise2D` (transcribed from src/noise.ts). -/
def valueNoise2D : String :=
  "//! requires rand22Sin smoothStepVec2\nfn noise2(n: vec2f) -> f32 \x7b\n    let d = vec2f(0., 1.);\n    let b = floor(n);\n    let f = smoothStepVec2(vec2f(0.), vec2f(1.), fract(n));\n    return mix(mix(rand22(b), rand22(b + d.yx), f.x), mix(rand22(b + d.xy), rand22(b + d.yy), f.x), f.y);\n\x7d"

/-- Source text of `mod289` (transcribed from src/noise.ts). -/
def mod289 : String :=
  "fn mod289(x: vec4f) -> vec4f \x7b \n    return x - floor(x * (1. / 289.)) * 289.; \n\x7d"

/-- Source text of `perm4` (transcribed from src/noise.ts). -/
def perm4 : String :=
  "//! requires mod289\nfn perm4(x: vec4f) -> vec4f \x7b \n    return mod289(((x * 34.) + 1.) * x); \n\x7d"

/-- Source text of `valueNoise3D` (transcribed from src/noise.ts). -/
def valueNoise3D : String :=
  "//! requires perm4\nfn noise3(p: vec3f) -> f32 \x7b\n    let a = floor(p);\n    var d: vec3f = p - a;\n    d = d * d * (3. - 2. * d);\n\n    let b = a.xxyy + vec4f(0., 1., 0., 1.);\n    let k1 = perm4(b.xyxy);\n    let k2 = perm4(k1.xyxy + b.zzww);\n\n    let c = k2 + a.zzzz;\n    let k3 = perm4(c);\n    let k4 = perm4(c + 1.);\n\n    let o1 = fract(k3 * (1. / 41.));\n    let o2 = fract(k4 * (1. / 41.));\n\n    let o3 = o2 * d.z + o1 * (1. - d.z);\n    let o4 = o3.yw * d.x + o3.xz * (1. - d.x);\n\n    return o4.y * d.y + o4.x * (1. - d.y);\n\x7d"

/-- Source text of `perlinNoise2D` (transcribed from src/noise.ts). -/
def perlinNoise2D : String :=
  "fn perlinNoise2_permute4(x: vec4f) -> vec4f \x7b \n    return ((x * 34. + 1.) * x) % vec4f(289.); \n\x7d\n\nfn perlinNoise2_fade2(t: vec2f) -> vec2f \x7b \n    return t * t * t * (t * (t * 6. - 15.) + 10.); \n\x7d\n\nfn perlinNoise2(P: vec2f) -> f32 \x7b\n    var Pi: vec4f = floor(P.xyxy) + vec4f(0., 0., 1., 1.);\n    let Pf = fract(P.xyxy) - vec4f(0., 0., 1., 1.);\n    Pi = Pi % vec4f(289.); // To avoid truncation effects in permutation\n    let ix = Pi.xzxz;\n    let iy = Pi.yyww;\n    let fx = Pf.xzxz;\n    let fy = Pf.yyww;\n    let i = perlinNoise2_permute4(perlinNoise2_permute4(ix) + iy);\n    var gx: vec4f = 2. * fract(i * 0.0243902439) - 1.; // 1/41 = 0.024...\n    let gy = abs(gx) - 0.5;\n    let tx = floor(gx + 0.5);\n    gx = gx - tx;\n    var g00: vec2f = vec2f(gx.x, gy.x);\n    var g10: vec2f = vec2f(gx.y, gy.y);\n    var g01: vec2f = vec2f(gx.z, gy.z);\n    var g11: vec2f = vec2f(gx.w, gy.w);\n    let norm = 1.79284291400159 - 0.85373472095314 *\n        vec4f(dot(g00, g00), dot(g01, g01), dot(g10, g10), dot(g11, g11));\n    g00 = g00 * norm.x;\n    g01 = g01 * norm.y;\n    g10 = g10 * norm.z;\n    g11 = g11 * norm.w;\n    let n00 = dot(g00, vec2f(fx.x, fy.x));\n    let n10 = dot(g10, vec2f(fx.y, fy.y));\n    let n01 = dot(g01, vec2f(fx.z, fy.z));\n    let n11 = dot(g11, vec2f(fx.w, fy.w));\n    let fade_xy = perlinNoise2_fade2(Pf.xy);\n    let n_x = mix(vec2f(n00, n01), vec2f(n10, n11), vec2f(fade_xy.x));\n    let n_xy = mix(n_x.x, n_x.y, fade_xy.y);\n    return 2.3 * n_xy;\n\x7d"

/-- Source text of `perlinNoise3D` (transcribed from src/noise.ts). -/
def perlinNoise3D : String :=
  "//! requires taylorInvSqrt4\nfn perlinNoise3_permute4(x: vec4f) -> vec4f \x7b \n    return ((x * 34. + 1.) * x) % vec4f(289.); \n\x7d\n\nfn perlinNoise3_fade3(t: vec3f) -> vec3f \x7b \n    return t * t * t * (t * (t * 6. - 15.) + 10.); \n\x7d\n\nfn perlinNoise3(P: vec3f) -> f32 \x7b\n    var Pi0 : vec3f = floor(P); // Integer part for indexing\n    var Pi1 : vec3f = Pi0 + vec3f(1.); // Integer part + 1\n    Pi0 = Pi0 % vec3f(289.);\n    Pi1 = Pi1 % vec3f(289.);\n    let Pf0 = fract(P); // Fractional part for interpolation\n    let Pf1 = Pf0 - vec3f(1.); // Fractional part - 1.\n    let ix = vec4f(Pi0.x, Pi1.x, Pi0.x, Pi1.x);\n    let iy = vec4f(Pi0.yy, Pi1.yy);\n    let iz0 = Pi0.zzzz;\n    let iz1 = Pi1.zzzz;\n\n    let ixy = perlinNoise3_permute4(perlinNoise3_permute4(ix) + iy);\n    let ixy0 = perlinNoise3_permute4(ixy + iz0);\n    let ixy1 = perlinNoise3_permute4(ixy + iz1);\n\n    var gx0: vec4f = ixy0 / 7.;\n    var gy0: vec4f = fract(floor(gx0) / 7.) - 0.5;\n    gx0 = fract(gx0);\n    var gz0: vec4f = vec4f(0.5) - abs(gx0) - abs(gy0);\n    var sz0: vec4f = step(gz0, vec4f(0.));\n    gx0 = gx0 + sz0 * (step(vec4f(0.), gx0) - 0.5);\n    gy0 = gy0 + sz0 * (step(vec4f(0.), gy0) - 0.5);\n\n    var gx1: vec4f = ixy1 / 7.;\n    var gy1: vec4f = fract(floor(gx1) / 7.) - 0.5;\n    gx1 = fract(gx1);\n    var gz1: vec4f = vec4f(0.5) - abs(gx1) - abs(gy1);\n    var sz1: vec4f = step(gz1, vec4f(0.));\n    gx1 = gx1 - sz1 * (step(vec4f(0.), gx1) - 0.5);\n    gy1 = gy1 - sz1 * (step(vec4f(0.), gy1) - 0.5);\n\n    var g000: vec3f = vec3f(gx0.x, gy0.x, gz0.x);\n    var g100: vec3f = vec3f(gx0.y, gy0.y, gz0.y);\n    var g010: vec3f = vec3f(gx0.z, gy0.z, gz0.z);\n    var g110: vec3f = vec3f(gx0.w, gy0.w, gz0.w);\n    var g001: vec3f = vec3f(gx1.x, gy1.x, gz1.x);\n    var g101: vec3f = vec3f(gx1.y, gy1.y, gz1.y);\n    var g011: vec3f = vec3f(gx1.z, gy1.z, gz1.z);\n    var g111: vec3f = vec3f(gx1.w, gy1.w, gz1.w);\n\n    let norm0 = taylorInvSqrt4(\n        vec4f(dot(g000, g000), dot(g010, g010), dot(g100, g100), dot(g110, g110)));\n    g000 = g000 * norm0.x;\n    g010 = g010 * norm0.y;\n    g100 = g100 * norm0.z;\n    g110 = g110 * norm0.w;\n    let norm1 = taylorInvSqrt4(\n        vec4f(dot(g001, g001), dot(g011, g011), dot(g101, g101), dot(g111, g111)));\n    g001 = g001 * norm1.x;\n    g011 = g011 * norm1.y;\n    g101 = g101 * norm1.z;\n    g111 = g111 * norm1.w;\n\n    let n000 = dot(g000, Pf0);\n    let n100 = dot(g100, vec3f(Pf1.x, Pf0.yz));\n    let n010 = dot(g010, vec3f(Pf0.x, Pf1.y, Pf0.z));\n    let n110 = dot(g110, vec3f(Pf1.xy, Pf0.z));\n    let n001 = dot(g001, vec3f(Pf0.xy, Pf1.z));\n    let n101 = dot(g101, vec3f(Pf1.x, Pf0.y, Pf1.z));\n    let n011 = dot(g011, vec3f(Pf0.x, Pf1.yz));\n    let n111 = dot(g111, Pf1);\n\n    var fade_xyz: vec3f = perlinNoise3_fade3(Pf0);\n    let temp = vec4f(f32(fade_xyz.z)); // simplify after chrome bug fix\n    let n_z = mix(vec4f(n000, n100, n010, n110), vec4f(n001, n101, n011, n111), temp);\n    let n_yz = mix(n_z.xy, n_z.zw, vec2f(f32(fade_xyz.y))); // simplify after chrome bug fix\n    let n_xyz = mix(n_yz.x, n_yz.y, fade_xyz.x);\n    return 2.2 * n_xyz;\n\x7d"

/-- Source text of `simplexNoise2D` (transcribed from src/noise.ts). -/
def simplexNoise2D : String :=
  "fn snoise2D_permute3(x: vec3<f32>) -> vec3<f32> \x7b\n    return ((x * 34.0 + 1.0) * x) % vec3<f32>(289.0);\n\x7d\n\nfn snoise2D(v: vec2<f32>) -> f32 \x7b\n    let C = vec4<f32>(0.211324865405187, 0.366025403784439, -0.577350269189626, 0.024390243902439);\n    var i = floor(v + dot(v, C.yy));\n    let x0 = v - i + dot(i, C.xx);\n    \n    var i1: vec2<f32>;\n    if (x0.x > x0.y) \x7b\n        i1 = vec2<f32>(1.0, 0.0);\n    \x7d else \x7b\n        i1 = vec2<f32>(0.0, 1.0);\n    \x7d\n    \n    var x12 = x0.xyxy + C.xxzz;\n    x12 = vec4<f32>(x12.xy - i1, x12.zw);\n    \n    i = i % vec2<f32>(289.0);\n    let p = snoise2D_permute3(snoise2D_permute3(i.y + vec3<f32>(0.0, i1.y, 1.0)) + i.x + vec3<f32>(0.0, i1.x, 1.0));\n    \n    var m = max(0.5 - vec3<f32>(dot(x0, x0), dot(x12.xy, x12.xy), dot(x12.zw, x12.zw)), vec3<f32>(0.0));\n    m = m * m;\n    m = m * m;\n    \n    let x = 2.0 * fract(p * C.www) - 1.0;\n    let h = abs(x) - 0.5;\n    let ox = floor(x + 0.5);\n    let a0 = x - ox;\n    \n    m *= 1.79284291400159 - 0.85373472095314 * (a0 * a0 + h * h);\n    \n    var g: vec3<f32>;\n    g.x = a0.x * x0.x + h.x * x0.y;\n    g.y = a0.y * x12.x + h.y * x12.y;\n    g.z = a0.z * x12.z + h.z * x12.w;\n    \n    return 130.0 * dot(m, g);\n\x7d"

/-- Source text of `simplexNoise3D` (transcribed from src/noise.ts). -/
def simplexNoise3D : String :=
  "fn snoise3D_permute4(x: vec4<f32>) -> vec4<f32> \x7b\n    return ((x * 34.0 + 1.0) * x) % vec4<f32>(289.0);\n\x7d\n\nfn snoise3D_taylorInvSqrt4(r: vec4<f32>) -> vec4<f32> \x7b\n    return 1.79284291400159 - 0.85373472095314 * r;\n\x7d\n\nfn snoise3D(v: vec3<f32>) -> f32 \x7b\n    let C = vec2<f32>(1.0 / 6.0, 1.0 / 3.0);\n    let D = vec4<f32>(0.0, 0.5, 1.0, 2.0);\n    \n    // First corner\n    var i = floor(v + dot(v, C.yyy));\n    let x0 = v - i + dot(i, C.xxx);\n    \n    // Other corners\n    let g = step(x0.yzx, x0.xyz);\n    let l = 1.0 - g;\n    let i1 = min(g.xyz, l.zxy);\n    let i2 = max(g.xyz, l.zxy);\n    \n    // x0 = x0 - 0. + 0.0 * C\n    let x1 = x0 - i1 + 1.0 * C.xxx;\n    let x2 = x0 - i2 + 2.0 * C.xxx;\n    let x3 = x0 - 1.0 + 3.0 * C.xxx;\n    \n    // Permutations\n    i = i % vec3<f32>(289.0);\n    let p = snoise3D_permute4(snoise3D_permute4(snoise3D_permute4(\n        i.z + vec4<f32>(0.0, i1.z, i2.z, 1.0)) +\n        i.y + vec4<f32>(0.0, i1.y, i2.y, 1.0)) +\n        i.x + vec4<f32>(0.0, i1.x, i2.x, 1.0));\n    \n    // Gradients\n    // (N*N points uniformly over a square, mapped onto an octahedron.)\n    let n_ = 1.0 / 7.0; // N=7\n    let ns = n_ * D.wyz - D.xzx;\n    \n    let j = p - 49.0 * floor(p * ns.z * ns.z); // mod(p,N*N)\n    \n    let x_ = floor(j * ns.z);\n    let y_ = floor(j - 7.0 * x_); // mod(j,N)\n    \n    let x = x_ * ns.x + ns.yyyy;\n    let y = y_ * ns.x + ns.yyyy;\n    let h = 1.0 - abs(x) - abs(y);\n    \n    let b0 = vec4<f32>(x.xy, y.xy);\n    let b1 = vec4<f32>(x.zw, y.zw);\n    \n    let s0 = floor(b0) * 2.0 + 1.0;\n    let s1 = floor(b1) * 2.0 + 1.0;\n    let sh = -step(h, vec4<f32>(0.0));\n    \n    let a0 = b0.xzyw + s0.xzyw * sh.xxyy;\n    let a1 = b1.xzyw + s1.xzyw * sh.zzww;\n    \n    var p0 = vec3<f32>(a0.xy, h.x);\n    var p1 = vec3<f32>(a0.zw, h.y);\n    var p2 = vec3<f32>(a1.xy, h.z);\n    var p3 = vec3<f32>(a1.zw, h.w);\n    \n    // Normalise gradients\n    let norm = snoise3D_taylorInvSqrt4(vec4<f32>(dot(p0, p0), dot(p1, p1), dot(p2, p2), dot(p3, p3)));\n    p0 *= norm.x;\n    p1 *= norm.y;\n    p2 *= norm.z;\n    p3 *= norm.w;\n    \n    // Mix final noise value\n    var m = max(0.6 - vec4<f32>(dot(x0, x0), dot(x1, x1), dot(x2, x2), dot(x3, x3)), vec4<f32>(0.0));\n    m = m * m;\n    return 42.0 * dot(m * m, vec4<f32>(dot(p0, x0), dot(p1, x1), dot(p2, x2), dot(p3, x3)));\n\x7d"

/-- Source text of `simplexNoise4D` (transcribed from src/noise.ts). -/
def simplexNoise4D : String :=
  "//! requires mod289 taylorInvSqrt4\nfn snoise_permute4(x: vec4<f32>) -> vec4<f32> \x7b\n    return mod289(((x * 34.0) + 10.0) * x);\n\x7d\n\nfn snoise_mod289f(x: f32) -> f32 \x7b\n    return x - floor(x * (1.0 / 289.0)) * 289.0;\n\x7d\n\nfn snoise_permute(x: f32) -> f32 \x7b\n    return snoise_mod289f(((x * 34.0) + 10.0) * x);\n\x7d\n\nfn snoise_taylorInvSqrt(r: f32) -> f32 \x7b\n    return 1.79284291400159 - 0.85373472095314 * r;\n\x7d\n\nfn snoise_grad4(j: f32, ip: vec4<f32>) -> vec4<f32> \x7b\n    let ones = vec4(1.0, 1.0, 1.0, -1.0);\n\n    var p: vec4<f32>;\n    var s: vec4<f32>;\n\n    p = vec4(floor(fract(vec3(j) * ip.xyz) * 7.0) * ip.z - 1.0, p.w);\n    p.w = 1.5 - dot(abs(p.xyz), ones.xyz);\n    s = select(vec4(0.0), vec4(1.0), p < vec4(0.0));\n    p = vec4(p.xyz + (s.xyz * 2.0 - 1.0) * s.www, p.w);\n\n    return p;\n\x7d\n\nfn snoise(v: vec4<f32>) -> f32 \x7b\n    let C: vec4<f32> = vec4(\n        0.138196601125011, // (5 - sqrt(5))/20  G4\n        0.276393202250021, // 2 * G4\n        0.414589803375032, // 3 * G4\n        -0.447213595499958 // -1 + 4 * G4\n    );\n\n    // (sqrt(5) - 1)/4 = F4, used once below\n    let F4: f32 = 0.309016994374947451;\n\n    // First corner\n    var i: vec4<f32> = floor(v + dot(v, vec4(F4)));\n    var x0: vec4<f32> = v - i + dot(i, C.xxxx);\n\n    // Other corners\n\n    // Rank sorting originally contributed by Bill Licea-Kane, AMD (formerly ATI)\n    var i0: vec4<f32>;\n    var isX: vec3<f32> = step(x0.yzw, x0.xxx);\n    var isYZ: vec3<f32> = step(x0.zww, x0.yyz);\n\n    //  i0.x = dot( isX, vec3( 1.0 ) );\n    i0.x = isX.x + isX.y + isX.z;\n    var minusX = 1.0 - isX;\n    i0.y = minusX.x;\n    i0.z = minusX.y;\n    i0.w = minusX.z;\n\n    //  i0.y += dot( isYZ.xy, vec2( 1.0 ) );\n    i0.y += isYZ.x + isYZ.y;\n    var minusY = 1.0 - isYZ;\n    i0.z += minusY.x;\n    i0.w += minusY.y;\n    i0.z += isYZ.z;\n    i0.w += minusY.z;\n\n    // i0 now contains the unique values 0,1,2,3 in each channel\n    var i3: vec4<f32> = vec4<f32>(clamp(i0, vec4(0.0), vec4(1.0)));\n    var i2: vec4<f32> = clamp(i0 - vec4(1.0), vec4(0.0), vec4(1.0));\n    var i1: vec4<f32> = clamp(i0 - vec4(2.0), vec4(0.0), vec4(1.0));\n\n    //  x0 = x0 - 0.0 + 0.0 * C.xxxx\n    //  x1 = x0 - i1  + 1.0 * C.xxxx\n    //  x2 = x0 - i2  + 2.0 * C.xxxx\n    //  x3 = x0 - i3  + 3.0 * C.xxxx\n    //  x4 = x0 - 1.0 + 4.0 * C.xxxx\n    var x1: vec4<f32> = x0 - i1 + C.xxxx;\n    var x2: vec4<f32> = x0 - i2 + C.yyyy;\n    var x3: vec4<f32> = x0 - i3 + C.zzzz;\n    var x4: vec4<f32> = x0 + C.wwww;\n\n    // Permutations\n    i = mod289(i);\n    var j0: f32 = snoise_permute(snoise_permute(snoise_permute(snoise_permute(i.w) + i.z) + i.y) + i.x);\n    var j1: vec4<f32> = snoise_permute4(snoise_permute4(snoise_permute4(snoise_permute4(i.w + vec4(i1.w, i2.w, i3.w, 1.0)) + i.z + vec4(i1.z, i2.z, i3.z, 1.0)) + i.y + vec4(i1.y, i2.y, i3.y, 1.0)) + i.x + vec4(i1.x, i2.x, i3.x, 1.0));\n\n    // Gradients: 7x7x6 points over a cube, mapped onto a 4-cross polytope\n    // 7*7*6 = 294, which is close to the ring size 17*17 = 289.\n    var ip: vec4<f32> = vec4(1.0 / 294.0, 1.0 / 49.0, 1.0 / 7.0, 0.0);\n\n    var p0: vec4<f32> = snoise_grad4(j0, ip);\n    var p1: vec4<f32> = snoise_grad4(j1.x, ip);\n    var p2: vec4<f32> = snoise_grad4(j1.y, ip);\n    var p3: vec4<f32> = snoise_grad4(j1.z, ip);\n    var p4: vec4<f32> = snoise_grad4(j1.w, ip);\n\n    // Normalise gradients\n    var norm: vec4<f32> = taylorInvSqrt4(vec4(dot(p0, p0), dot(p1, p1), dot(p2, p2), dot(p3, p3)));\n    p0 *= norm.x;\n    p1 *= norm.y;\n    p2 *= norm.z;\n    p3 *= norm.w;\n    p4 *= snoise_taylorInvSqrt(dot(p4, p4));\n\n    // Mix contributions from the five corners\n    var m0: vec3<f32> = max(0.6 - vec3(dot(x0, x0), dot(x1, x1), dot(x2, x2)), vec3(0.0));\n    var m1: vec2<f32> = max(0.6 - vec2(dot(x3, x3), dot(x4, x4)), vec2(0.0));\n    m0 = m0 * m0;\n    m1 = m1 * m1;\n    return 49.0 * (dot(m0 * m0, vec3(dot(p0, x0), dot(p1, x1), dot(p2, x2))) + dot(m1 * m1, vec2(dot(p3, x3), dot(p4, x4))));\n\x7d"

/-- Source text of `sdfCircle` (transcribed from src/sdf.ts (previous revision; name unchanged)). -/
def sdfCircle : String :=
  "fn sdfCircle(p: vec2<f32>, r: f32) -> f32 \x7b\n  return length(p) - r;\n\x7d"

/-- Source text of `sdfBox` (transcribed from src/sdf.ts (previous revision; name unchanged)). -/
def sdfBox : String :=
  "fn sdfBox(p: vec2<f32>, b: vec2<f32>) -> f32 \x7b\n  let d = abs(p) - b;\n  return length(max(d, vec2(0.0))) + min(max(d.x, d.y), 0.0);\n\x7d"

/-- Source text of `sdfUnion` (transcribed from src/sdf.ts (previous revision; name unchanged)). -/
def sdfUnion : String :=
  "fn sdfUnion(d1: f32, d2: f32) -> f32 \x7b\n  return min(d1, d2);\n\x7d"

/-- Source text of `sdfIntersection` (transcribed from src/sdf.ts (previous revision; name unchanged)). -/
def sdfIntersection : String :=
  "fn sdfIntersection(d1: f32, d2: f32) -> f32 \x7b\n  return max(d1, d2);\n\x7d"

/-- Source text of `sdfSubtraction` (transcribed from src/sdf.ts (previous revision; name unchanged)). -/
def sdfSubtraction : String :=
  "fn sdfSubtraction(d1: f32, d2: f32) -> f32 \x7b\n  return max(-d1, d2);\n\x7d"

/-- Modelled from the spec: the current `src/sdf.ts` revision is not in the pack; the body is the previous revision of `boxFrameSDF` with the `boxFrameSDF` to `sdfBoxFrame` rename applied. It declares no dependencies, and no claim depends on its body text beyond that. -/
def sdfBoxFrame : String :=
  "fn sdfBoxFrame(position: vec3<f32>, size: vec3<f32>, thickness: f32) -> f32 \x7b\n  let q = abs(position) - size;\n  let w = abs(q + thickness) - thickness;\n  return min(min(\n    length(max(vec3<f32>(q.x, w.y, w.z), vec3<f32>(0.0))) + min(max(q.x, max(w.y, w.z)), 0.0),\n    length(max(vec3<f32>(w.x, q.y, w.z), vec3<f32>(0.0))) + min(max(w.x, max(q.y, w.z)), 0.0)),\n    length(max(vec3<f32>(w.x, w.y, q.z), vec3<f32>(0.0))) + min(max(w.x, max(w.y, q.z)), 0.0));\n\x7d"

/-- Modelled from the spec: the current `src/sdf.ts` revision is not in the pack; the body is the previous revision of `cappedTorusSDF` with the `cappedTorusSDF` to `sdfCappedTorus` rename applied. It declares no dependencies, and no claim depends on its body text beyond that. -/
def sdfCappedTorus : String :=
  "fn sdfCappedTorus(position: vec3<f32>, majorRadius: f32, minorRadius: f32, angle: f32) -> f32 \x7b\n  let sc = vec2<f32>(sin(angle), cos(angle));\n  let q = vec3<f32>(abs(position.x), position.y, position.z);\n  let k = select(\n    length(q.xy), \n    dot(q.xy, sc),\n    sc.y * q.x > sc.x * q.y\n  );\n  return sqrt(dot(q, q) + \n              majorRadius * majorRadius - \n              2.0 * majorRadius * k) - \n              minorRadius;\n\x7d"

/-- Modelled from the spec: the current `src/sdf.ts` revision is not in the pack; the body is the previous revision of `capsuleSDF` with the `capsuleSDF` to `sdfCapsule` rename applied. It declares no dependencies, and no claim depends on its body text beyond that. -/
def sdfCapsule : String :=
  "fn sdfCapsule(position: vec3<f32>, radius: f32, height: f32) -> f32 \x7b\n  let d = abs(length(position.xz)) - radius;\n  let p = vec2<f32>(d, abs(position.y) - height * 0.5);\n  return length(max(p, vec2<f32>(0.0))) + min(max(p.x, p.y), 0.0) - radius;\n\x7d"

/-- Modelled from the spec: the current `src/sdf.ts` revision is not in the pack; the body is the previous revision of `coneSDF` with the `coneSDF` to `sdfCone` rename applied. It declares no dependencies, and no claim depends on its body text beyond that. -/
def sdfCone : String :=
  "fn sdfCone(position: vec3<f32>, radius: f32, height: f32) -> f32 \x7b\n  let q = vec2<f32>(length(position.xz), position.y);\n  let h = height;\n  let r = radius;\n  \n  // Calculate distance\n  let d1 = -q.y - h;\n  let d2 = max(q.x * h - q.y * r, q.y * h + q.x * r);\n  \n  return length(max(vec2<f32>(d1, d2), vec2<f32>(0.0))) + min(max(d1, d2), 0.0);\n\x7d"

/-- Modelled from the spec: the current `src/sdf.ts` revision is not in the pack; the body is the previous revision of `cylinderSDF` with the `cylinderSDF` to `sdfCylinder` rename applied. It declares no dependencies, and no claim depends on its body text beyond that. -/
def sdfCylinder : String :=
  "fn sdfCylinder(position: vec3<f32>, radius: f32, height: f32) -> f32 \x7b\n  let d = vec2<f32>(length(position.xz), abs(position.y)) - vec2<f32>(radius, height * 0.5);\n  return min(max(d.x, d.y), 0.0) + length(max(d, vec2<f32>(0.0)));\n\x7d"

/-- Modelled from the spec: the current `src/sdf.ts` revision is not in the pack; the body is the previous revision of `ellipsoidSDF` with the `ellipsoidSDF` to `sdfEllipsoid` rename applied. It declares no dependencies, and no claim depends on its body text beyond that. -/
def sdfEllipsoid : String :=
  "fn sdfEllipsoid(position: vec3<f32>, radius: vec3<f32>) -> f32 \x7b\n  let k0 = length(position / radius);\n  let k1 = length(position / (radius * radius));\n  return k0 * (k0 - 1.0) / k1;\n\x7d"

/-- Modelled from the spec: the current `src/sdf.ts` revision is not in the pack; the body is the previous revision of `gyroidSDF` with the `gyroidSDF` to `sdfGyroid` rename applied. It declares no dependencies, and no claim depends on its body text beyond that. -/
def sdfGyroid : String :=
  "fn sdfGyroid(position: vec3<f32>, scale: f32, thickness: f32) -> f32 \x7b\n  let p = position * scale;\n  return (abs(dot(sin(p), cos(p.zxy))) - thickness) / scale;\n\x7d"

/-- Modelled from the spec: the current `src/sdf.ts` revision is not in the pack; the body is the previous revision of `hexagonalPrismSDF` with the `hexagonalPrismSDF` to `sdfHexagonalPrism` rename applied. It declares no dependencies, and no claim depends on its body text beyond that. -/
def sdfHexagonalPrism : String :=
  "fn sdfHexagonalPrism(position: vec3<f32>, radius: f32, height: f32) -> f32 \x7b\n  // Project into 2D\n  var p = abs(position);\n  let k = vec3<f32>(-0.866025404, 0.5, 0.577350269);\n  \n  // Hexagon in xy-plane\n  p = vec3<f32>(p.x + p.y * k.x, p.y * k.y, p.z);\n  p = vec3<f32>(p.x - min(p.x, p.y), p.y, p.z);\n  let d = vec2<f32>(length(vec2<f32>(p.x, p.y - radius * k.z)) - radius, abs(p.z) - height * 0.5);\n  \n  return min(max(d.x, d.y), 0.0) + length(max(d, vec2<f32>(0.0)));\n\x7d"

/-- Modelled from the spec: the current `src/sdf.ts` revision is not in the pack; the body is the previous revision of `icosahedronSDF` with the `icosahedronSDF` to `sdfIcosahedron` rename applied. It declares no dependencies, and no claim depends on its body text beyond that. -/
def sdfIcosahedron : String :=
  "fn sdfIcosahedron(position: vec3<f32>, size: f32) -> f32 \x7b\n  var p = position;\n  let s = size;\n  \n  // Constants for icosahedron\n  let phi = 1.618033988749895;\n  let a = s;\n  let b = s * phi;\n  \n  // Compute distance to icosahedron\n  p = abs(p / s);\n  let d = p.x * p.y * p.z;\n  let m = max(max(p.x, p.y), p.z);\n  let n = min(min(p.x, p.y), p.z);\n  let mid = p.x + p.y + p.z - m - n;\n  \n  // Calculate the signed distance\n  let q = select(mid, d, m < phi * n);\n  return (length(p) - phi) * s;\n\x7d"

/-- Modelled from the spec: the current `src/sdf.ts` revision is not in the pack; the body is the previous revision of `juliaSDF` with the `juliaSDF` to `sdfJulia` rename applied. It declares no dependencies, and no claim depends on its body text beyond that. -/
def sdfJulia : String :=
  "fn sdfJulia(position: vec3<f32>, c: vec4<f32>, iterations: f32, bailout: f32) -> f32 \x7b\n  var z = vec4<f32>(position, 0.0);\n  var dz = vec4<f32>(1.0, 0.0, 0.0, 0.0);\n  var m = dot(z, z);\n  var i = 0;\n  \n  // Quaternion multiplication helper\n  let quatMul = fn(a: vec4<f32>, b: vec4<f32>) -> vec4<f32> \x7b\n    return vec4<f32>(\n      a.x * b.x - a.y * b.y - a.z * b.z - a.w * b.w,\n      a.x * b.y + a.y * b.x + a.z * b.w - a.w * b.z,\n      a.x * b.z - a.y * b.w + a.z * b.x + a.w * b.y,\n      a.x * b.w + a.y * b.z - a.z * b.y + a.w * b.x\n    );\n  \x7d;\n  \n  // Julia set iteration\n  for (i = 0; i < i32(iterations) && m < bailout * bailout; i += 1) \x7b\n    dz = 2.0 * quatMul(z, dz);\n    z = quatMul(z, z) + c;\n    m = dot(z, z);\n  \x7d\n  \n  // Compute the distance\n  let dist = 0.5 * log(m) * sqrt(m) / length(dz);\n  return dist;\n\x7d"

/-- Modelled from the spec: the current `src/sdf.ts` revision is not in the pack; the body is the previous revision of `octahedronSDF` with the `octahedronSDF` to `sdfOctahedron` rename applied. It declares no dependencies, and no claim depends on its body text beyond that. -/
def sdfOctahedron : String :=
  "fn sdfOctahedron(position: vec3<f32>, size: f32) -> f32 \x7b\n  let p = abs(position);\n  let m = p.x + p.y + p.z - size;\n  \n  // Calculate the distance\n  var q: vec3<f32>;\n  if (3.0 * p.x < m) \x7b\n    q = p;\n  \x7d else if (3.0 * p.y < m) \x7b\n    q = vec3<f32>(p.x, p.z, p.y);\n  \x7d else if (3.0 * p.z < m) \x7b\n    q = vec3<f32>(p.x, p.y, p.z);\n  \x7d else \x7b\n    q = p;\n  \x7d\n  \n  let k = clamp(0.5 * (q.z - q.y + size), 0.0, size);\n  return length(vec3<f32>(q.x, q.y - size + k, q.z - k));\n\x7d"

/-- Modelled from the spec: the current `src/sdf.ts` revision is not in the pack; the body is the previous revision of `planeSDF` with the `planeSDF` to `sdfPlane` rename applied. It declares no dependencies, and no claim depends on its body text beyond that. -/
def sdfPlane : String :=
  "fn sdfPlane(position: vec3<f32>, normal: vec3<f32>) -> f32 \x7b\n  let n = normalize(normal);\n  return dot(position, n);\n\x7d"

/-- Modelled from the spec: the current `src/sdf.ts` revision is not in the pack; the body is the previous revision of `pyramidSDF` with the `pyramidSDF` to `sdfPyramid` rename applied. It declares no dependencies, and no claim depends on its body text beyond that. -/
def sdfPyramid : String :=
  "fn sdfPyramid(position: vec3<f32>, size: f32, height: f32) -> f32 \x7b\n  // Normalize position\n  var p = position;\n  let h = height;\n  let m2 = h * h + size * size;\n  \n  // Project into 2D\n  let q = abs(p);\n  p.y -= h;\n  p.y = max(p.y, 0.0);\n  \n  // Distance calculation\n  var d: f32;\n  if (max(q.x, q.z) < size) \x7b\n    d = length(vec2<f32>(length(p.xz), p.y)) - sqrt(m2);\n  \x7d else \x7b\n    d = length(vec2<f32>(length(max(abs(p.xz) - vec2<f32>(size), vec2<f32>(0.0))), p.y));\n  \x7d\n  \n  // Account for position below base\n  d = select(d, length(p) - sqrt(m2), p.y < 0.0);\n  \n  return d;\n\x7d"

/-- Modelled from the spec: the current `src/sdf.ts` revision is not in the pack; the body is the previous revision of `rhombusSDF` with the `rhombusSDF` to `sdfRhombus` rename applied. It declares no dependencies, and no claim depends on its body text beyond that. -/
def sdfRhombus : String :=
  "fn sdfRhombus(position: vec3<f32>, dimensions: vec3<f32>, sharpness: f32) -> f32 \x7b\n  var p = abs(position);\n  let b = dimensions;\n  let e = sharpness;\n  \n  // Calculate distance to rhombus\n  p = p - b;\n  let q = abs(p.x + p.y + p.z) + e;\n  let h = max(vec3<f32>(q) - vec3<f32>(e), vec3<f32>(0.0));\n  \n  return min(max(p.x, max(p.y, p.z)), 0.0) + length(h);\n\x7d"

/-- Modelled from the spec: the current `src/sdf.ts` revision is not in the pack; the body is the previous revision of `roundBoxSDF` with the `roundBoxSDF` to `sdfRoundBox` rename applied. It declares no dependencies, and no claim depends on its body text beyond that. -/
def sdfRoundBox : String :=
  "fn sdfRoundBox(position: vec3<f32>, size: vec3<f32>, radius: f32) -> f32 \x7b\n  let q = abs(position) - size;\n  return length(max(q, vec3<f32>(0.0))) + \n         min(max(q.x, max(q.y, q.z)), 0.0) - \n         radius;\n\x7d"

/-- Modelled from the spec: the current `src/sdf.ts` revision is not in the pack; the body is the previous revision of `roundedConeSDF` with the `roundedConeSDF` to `sdfRoundedCone` rename applied. It declares no dependencies, and no claim depends on its body text beyond that. -/
def sdfRoundedCone : String :=
  "fn sdfRoundedCone(position: vec3<f32>, radius1: f32, radius2: f32, height: f32, roundness: f32) -> f32 \x7b\n  // Calculate distances\n  let p = position;\n  let r1 = radius1 - roundness;\n  let r2 = radius2 - roundness;\n  let h = height;\n  \n  // Squared distance from axis\n  let q = length(p.xz);\n  \n  // Project into 2D space\n  let k1 = (r2 - r1) / h;\n  let k2 = h / (r1 - r2);\n  let projected = vec2<f32>(q - r1 + r1 * (p.y / h) * (r1 - r2) / r1, p.y - h);\n  let ca = p.y * k1 - q;\n  let cb = p.y - r1 * k2 + q * k2;\n  \n  var s: f32;\n  if (ca < 0.0 && projected.y < 0.0) \x7b\n    s = length(projected) - roundness;\n  \x7d else if (ca > 0.0 && cb < 0.0) \x7b\n    s = -ca - roundness;\n  \x7d else \x7b\n    s = length(vec2<f32>(max(ca, 0.0), max(projected.y, 0.0))) - roundness;\n  \x7d\n  \n  return s;\n\x7d"

/-- Modelled from the spec: the current `src/sdf.ts` revision is not in the pack; the body is the previous revision of `roundedCylinderSDF` with the `roundedCylinderSDF` to `sdfRoundedCylinder` rename applied. It declares no dependencies, and no claim depends on its body text beyond that. -/
def sdfRoundedCylinder : String :=
  "fn sdfRoundedCylinder(position: vec3<f32>, radius: f32, height: f32, roundness: f32) -> f32 \x7b\n  // Calculate distances\n  let radiusOffset = radius - roundness;\n  let heightOffset = height * 0.5 - roundness;\n  \n  // Generate rounded cylinder\n  let d = vec2<f32>(length(position.xz) - radiusOffset, abs(position.y) - heightOffset);\n  return min(max(d.x, d.y), 0.0) + length(max(d, vec2<f32>(0.0))) - roundness;\n\x7d"

/-- Modelled from the spec: the current `src/sdf.ts` revision is not in the pack; the body is the previous revision of `sphereSDF` with the `sphereSDF` to `sdfSphere` rename applied. It declares no dependencies, and no claim depends on its body text beyond that. -/
def sdfSphere : String :=
  "fn sdfSphere(position: vec3<f32>, radius: f32) -> f32 \x7b\n  return length(position) - radius;\n\x7d"

/-- Modelled from the spec: the current `src/sdf.ts` revision is not in the pack; the body is the previous revision of `tetrahedronSDF` with the `tetrahedronSDF` to `sdfTetrahedron` rename applied. It declares no dependencies, and no claim depends on its body text beyond that. -/
def sdfTetrahedron : String :=
  "fn sdfTetrahedron(position: vec3<f32>, size: f32) -> f32 \x7b\n  var p = position;\n  let s = size;\n  \n  // Set initial values\n  let signVal = sign(p.x + p.y + p.z);\n  p.x = abs(p.x);\n  p.y = abs(p.y);\n  p.z = abs(p.z);\n  \n  // Calculate the distance\n  if (p.x < p.y) \x7b\n    let t = p.x;\n    p.x = p.y;\n    p.y = t;\n  \x7d\n  if (p.x < p.z) \x7b\n    let t = p.x;\n    p.x = p.z;\n    p.z = t;\n  \x7d\n  if (p.y < p.z) \x7b\n    let t = p.y;\n    p.y = p.z;\n    p.z = t;\n  \x7d\n  \n  let k = clamp((p.x + p.z - p.y) * 0.5, 0.0, p.z);\n  return signVal * (length(vec3<f32>(p.x, p.y - s, p.z - k)) - s);\n\x7d"

/-- Modelled from the spec: the current `src/sdf.ts` revision is not in the pack; the body is the previous revision of `torusSDF` with the `torusSDF` to `sdfTorus` rename applied. It declares no dependencies, and no claim depends on its body text beyond that. -/
def sdfTorus : String :=
  "fn sdfTorus(position: vec3<f32>, majorRadius: f32, minorRadius: f32) -> f32 \x7b\n  let q = vec2<f32>(length(position.xz) - majorRadius, position.y);\n  return length(q) - minorRadius;\n\x7d"

/-- Modelled from the spec: the current `src/sdf.ts` revision is not in the pack; the body is the previous revision of `triangularPrismSDF` with the `triangularPrismSDF` to `sdfTriangularPrism` rename applied. It declares no dependencies, and no claim depends on its body text beyond that. -/
def sdfTriangularPrism : String :=
  "fn sdfTriangularPrism(position: vec3<f32>, radius: f32, height: f32) -> f32 \x7b\n  var q = abs(position);\n  \n  // Triangle distance in xy-plane\n  let k = sqrt(3.0);\n  q.x = abs(q.x - q.y * k * 0.5);\n  q.y = q.y * 0.866025404 + q.x * 0.5;\n  \n  // Combine with z distance\n  let d1 = vec2<f32>(q.x - radius, q.y);\n  let d2 = vec2<f32>(q.y - radius, q.x);\n  let d = min(d1, d2);\n  \n  // Account for height\n  let h = height * 0.5;\n  let dz = q.z - h;\n  let dz2 = max(dz, 0.0);\n  \n  return length(max(vec2<f32>(max(d.x, 0.0), dz2), vec2<f32>(0.0))) + min(max(d.x, dz), 0.0);\n\x7d"

/-- Source text of `palette` (transcribed from src/color.ts). -/
def palette : String :=
  "fn palette(t: f32, a: vec3<f32>, b: vec3<f32>, c: vec3<f32>, d: vec3<f32>) -> vec3<f32> \x7b\n  return a + b * cos(6.28318 * (c * t + d));\n\x7d"

/-- Source text of `linearToSrgb` (transcribed from src/color.ts). -/
def linearToSrgb : String :=
  "fn linearToSrgb(color: vec3<f32>) -> vec3<f32> \x7b\n  return pow(color, vec3(1.0 / 2.2));\n\x7d"

/-- Source text of `srgbToLinear` (transcribed from src/color.ts). -/
def srgbToLinear : String :=
  "fn srgbToLinear(color: vec3<f32>) -> vec3<f32> \x7b\n  return pow(color, vec3(2.2));\n\x7d"

/-- Modelled from the spec: the current `src/color.ts` revision is not in the pack; the body is the previous revision of `hue2rgb` with the `hue2rgb` to `hueToRgb` rename (attested by the registry of `src/functions.ts` and the repository tests). -/
def hueToRgb : String :=
  "fn hueToRgb(p: f32, q: f32, t: f32) -> f32 \x7b\n  var t_adj = t;\n  if (t_adj < 0.0) \x7b t_adj += 1.0; \x7d\n  if (t_adj > 1.0) \x7b t_adj -= 1.0; \x7d\n  if (t_adj < 1.0 / 6.0) \x7b return p + (q - p) * 6.0 * t_adj; \x7d\n  if (t_adj < 1.0 / 2.0) \x7b return q; \x7d\n  if (t_adj < 2.0 / 3.0) \x7b return p + (q - p) * (2.0 / 3.0 - t_adj) * 6.0; \x7d\n  return p;\n\x7d"

/-- Modelled from the spec: the current `src/color.ts` revision is not in the pack; the body is the previous revision with the `hue2rgb` to `hueToRgb` rename applied, so its marker line declares `hueToRgb` (the repository tests assert exactly this dependency). -/
def hslToRgb : String :=
  "//! requires hueToRgb\nfn hslToRgb(hsl: vec3<f32>) -> vec3<f32> \x7b\n  let h = hsl.x;\n  let s = hsl.y;\n  let l = hsl.z;\n  \n  if (s == 0.0) \x7b\n    return vec3(l); // achromatic\n  \x7d\n  \n  let q = select(l * (1.0 + s), l + s - l * s, l < 0.5);\n  let p = 2.0 * l - q;\n  \n  return vec3(\n    hueToRgb(p, q, h + 1.0 / 3.0),\n    hueToRgb(p, q, h),\n    hueToRgb(p, q, h - 1.0 / 3.0)\n  );\n\x7d"

/-- Source text of `bezierCubic` (transcribed from src/animation.ts). -/
def bezierCubic : String :=
  "fn bezierCubic(t: f32, p0: f32, p1: f32, p2: f32, p3: f32) -> vec2<f32> \x7b\n  // Clamp t to [0,1]\n  let tt = clamp(t, 0.0, 1.0);\n  \n  // Calculate curve value using cubic Bezier formula\n  // P(t) = (1-t)\u00b3P\u2080 + 3(1-t)\u00b2tP\u2081 + 3(1-t)t\u00b2P\u2082 + t\u00b3P\u2083\n  let t1 = 1.0 - tt;\n  let t1Squared = t1 * t1;\n  let t1Cubed = t1Squared * t1;\n  let tSquared = tt * tt;\n  let tCubed = tSquared * tt;\n  \n  let value = t1Cubed * p0 + \n             3.0 * t1Squared * tt * p1 + \n             3.0 * t1 * tSquared * p2 + \n             tCubed * p3;\n  \n  // Calculate derivative for tangent information\n  // P\x27(t) = 3(1-t)\u00b2(P\u2081-P\u2080) + 6(1-t)t(P\u2082-P\u2081) + 3t\u00b2(P\u2083-P\u2082)\n  let derivative = 3.0 * t1Squared * (p1 - p0) +\n                  6.0 * t1 * tt * (p2 - p1) +\n                  3.0 * tSquared * (p3 - p2);\n  \n  return vec2<f32>(value, derivative);\n\x7d"

/-- Source text of `easeIn` (transcribed from src/animation.ts). -/
def easeIn : String :=
  "fn easeIn(t: f32, power: f32) -> f32 \x7b\n  return pow(clamp(t, 0.0, 1.0), power);\n\x7d"

/-- Source text of `easeOut` (transcribed from src/animation.ts). -/
def easeOut : String :=
  "fn easeOut(t: f32, power: f32) -> f32 \x7b\n  return 1.0 - pow(1.0 - clamp(t, 0.0, 1.0), power);\n\x7d"

/-- Source text of `easeInOut` (transcribed from src/animation.ts). -/
def easeInOut : String :=
  "fn easeInOut(t: f32, power: f32) -> f32 \x7b\n  let tt = clamp(t, 0.0, 1.0);\n  if (tt < 0.5) \x7b\n    return 0.5 * pow(2.0 * tt, power);\n  \x7d else \x7b\n    return 0.5 + 0.5 * (1.0 - pow(2.0 * (1.0 - tt), power));\n  \x7d\n\x7d"

/-- Source text of `elasticIn` (transcribed from src/animation.ts). -/
def elasticIn : String :=
  "fn elasticIn(t: f32) -> f32 \x7b\n  let tt = clamp(t, 0.0, 1.0);\n  return sin(13.0 * 3.14159 * tt) * pow(2.0, 10.0 * (tt - 1.0));\n\x7d"

/-- Source text of `elasticOut` (transcribed from src/animation.ts). -/
def elasticOut : String :=
  "fn elasticOut(t: f32) -> f32 \x7b\n  let tt = clamp(t, 0.0, 1.0);\n  return sin(-13.0 * 3.14159 * (tt + 1.0)) * pow(2.0, -10.0 * tt) + 1.0;\n\x7d"

/-- Source text of `backIn` (transcribed from src/animation.ts). -/
def backIn : String :=
  "fn backIn(t: f32) -> f32 \x7b\n  let s = 1.70158;\n  let tt = clamp(t, 0.0, 1.0);\n  return tt * tt * ((s + 1.0) * tt - s);\n\x7d"

/-- Source text of `backOut` (transcribed from src/animation.ts). -/
def backOut : String :=
  "fn backOut(t: f32) -> f32 \x7b\n  let s = 1.70158;\n  let tt = clamp(t, 0.0, 1.0);\n  let tMinus = tt - 1.0;\n  return tMinus * tMinus * ((s + 1.0) * tMinus + s) + 1.0;\n\x7d"

/-- Source text of `springPhysics` (transcribed from src/animation.ts). -/
def springPhysics : String :=
  "fn springPhysics(t: f32, targetPosition: f32, initialPos: f32, initialVel: f32, stiffness: f32, damping: f32, mass: f32) -> vec2<f32> \x7b\n  // Ensure positive values for stiffness, damping, and mass\n  let k = max(0.0001, stiffness);\n  let d = max(0.0, damping);\n  let m = max(0.0001, mass);\n  \n  // Calculate the angular frequency and damping ratio\n  let omega = sqrt(k / m);\n  let zeta = d / (2.0 * sqrt(k * m));\n  \n  // Initial displacement from targetPosition position\n  let x0 = initialPos - targetPosition;\n  let v0 = initialVel;\n  \n  var position: f32 = 0.0;\n  var velocity: f32 = 0.0;\n  \n  if (zeta < 1.0) \x7b\n    // Underdamped case\n    let omega_d = omega * sqrt(1.0 - zeta * zeta);\n    let A = x0;\n    let B = (v0 + zeta * omega * x0) / omega_d;\n    \n    // Calculate exponential decay term\n    let expTerm = exp(-zeta * omega * t);\n    \n    // Calculate position and velocity\n    position = targetPosition + expTerm * (A * cos(omega_d * t) + B * sin(omega_d * t));\n    velocity = expTerm * (\n                -zeta * omega * A * cos(omega_d * t) - omega_d * A * sin(omega_d * t) +\n                -zeta * omega * B * sin(omega_d * t) + omega_d * B * cos(omega_d * t)\n               );\n  \x7d else if (zeta == 1.0) \x7b\n    // Critically damped case\n    let A = x0;\n    let B = v0 + omega * x0;\n    \n    // Calculate exponential decay term\n    let expTerm = exp(-omega * t);\n    \n    // Calculate position and velocity\n    position = targetPosition + expTerm * (A + B * t);\n    velocity = expTerm * (B - omega * (A + B * t));\n  \x7d else \x7b\n    // Overdamped case\n    let omega1 = -omega * (zeta + sqrt(zeta * zeta - 1.0));\n    let omega2 = -omega * (zeta - sqrt(zeta * zeta - 1.0));\n    \n    let A = (v0 - omega2 * x0) / (omega1 - omega2);\n    let B = x0 - A;\n    \n    // Calculate position and velocity\n    position = targetPosition + A * exp(omega1 * t) + B * exp(omega2 * t);\n    velocity = A * omega1 * exp(omega1 * t) + B * omega2 * exp(omega2 * t);\n  \x7d\n  \n  return vec2<f32>(position, velocity);\n\x7d"

/-- Source text of `triangleWave` (transcribed from src/waves.ts). -/
def triangleWave : String :=
  "fn triangleWave(x: f32, frequency: f32, amplitude: f32, phase: f32) -> f32 \x7b\n  let t = x * frequency + phase;\n  let tt = fract(t);\n  let result = abs(2.0 * tt - 1.0);\n  return (1.0 - result) * amplitude;\n\x7d"

/-- Source text of `sawtoothWave` (transcribed from src/waves.ts). -/
def sawtoothWave : String :=
  "fn sawtoothWave(x: f32, frequency: f32, amplitude: f32, phase: f32) -> f32 \x7b\n  let t = x * frequency + phase;\n  let tt = fract(t);\n  return tt * amplitude;\n\x7d"

/-- Source text of `squareWave` (transcribed from src/waves.ts). -/
def squareWave : String :=
  "fn squareWave(x: f32, frequency: f32, amplitude: f32, phase: f32, dutyCycle: f32) -> f32 \x7b\n  let t = x * frequency + phase;\n  let tt = fract(t);\n  return select(0.0, amplitude, tt < dutyCycle);\n\x7d"

/-- Source text of `pulseWave` (transcribed from src/waves.ts). -/
def pulseWave : String :=
  "fn pulseWave(x: f32, frequency: f32, amplitude: f32, phase: f32, width: f32, falloff: f32) -> f32 \x7b\n  let t = x * frequency + phase;\n  let tt = fract(t);\n  \n  // Create a pulse with smooth edges\n  var pulse = 0.0;\n  \n  // If tt is within the width, pulse is 1.0\n  if (tt < width) \x7b\n    pulse = 1.0;\n  \x7d else if (tt < width + falloff) \x7b\n    // Smooth falloff\n    pulse = 1.0 - (tt - width) / falloff;\n  \x7d\n  \n  return pulse * amplitude;\n\x7d"

/-- Source text of `chirpWave` (transcribed from src/waves.ts). -/
def chirpWave : String :=
  "fn chirpWave(x: f32, startFrequency: f32, endFrequency: f32, amplitude: f32, period: f32) -> f32 \x7b\n  // Calculate the time within the current period\n  let t = fract(x / period);\n  \n  // Calculate the frequency at the current time (linear interpolation)\n  let freq = mix(startFrequency, endFrequency, t);\n  \n  // Calculate the phase which increases with changing frequency\n  let k = (endFrequency - startFrequency) / period;\n  let phase = 2.0 * 3.14159 * (startFrequency * t + 0.5 * k * t * t);\n  \n  // Return the sine wave with the calculated phase\n  return sin(phase) * amplitude;\n\x7d"

/-- Source text of `noiseWave` (transcribed from src/waves.ts). -/
def noiseWave : String :=
  "//! requires hash1D\nfn noiseWave(x: f32, frequency: f32, amplitude: f32, seed: f32) -> f32 \x7b\n  // Create interpolated noise\n  let t = x * frequency;\n  let floorT = floor(t);\n  let fractT = fract(t);\n  \n  // Get four noise values and interpolate between them\n  let n0 = hash1D(floorT + seed);\n  let n1 = hash1D(floorT + 1.0 + seed);\n  \n  // Smooth interpolation\n  let u = fractT * fractT * (3.0 - 2.0 * fractT); // Smoothstep\n  \n  return mix(n0, n1, u) * amplitude;\n\x7d"

/-- Source text of `sdfOpUnion` (transcribed from src/sdf-operations.ts). -/
def sdfOpUnion : String :=
  "fn sdfOpUnion(distanceA: f32, distanceB: f32) -> f32 \x7b\n  return min(distanceA, distanceB);\n\x7d"

/-- Source text of `sdfOpSubtract` (transcribed from src/sdf-operations.ts). -/
def sdfOpSubtract : String :=
  "fn sdfOpSubtract(distanceA: f32, distanceB: f32) -> f32 \x7b\n  return max(distanceA, -distanceB);\n\x7d"

/-- Source text of `sdfOpIntersect` (transcribed from src/sdf-operations.ts). -/
def sdfOpIntersect : String :=
  "fn sdfOpIntersect(distanceA: f32, distanceB: f32) -> f32 \x7b\n  return max(distanceA, distanceB);\n\x7d"

/-- Source text of `sdfSmoothUnion` (transcribed from src/sdf-operations.ts). -/
def sdfSmoothUnion : String :=
  "fn sdfSmoothUnion(distanceA: f32, distanceB: f32, smoothing: f32) -> f32 \x7b\n  let h = clamp(0.5 + 0.5 * (distanceB - distanceA) / smoothing, 0.0, 1.0);\n  return mix(distanceB, distanceA, h) - smoothing * h * (1.0 - h);\n\x7d"

/-- Source text of `sdfSmoothSubtract` (transcribed from src/sdf-operations.ts). -/
def sdfSmoothSubtract : String :=
  "fn sdfSmoothSubtract(distanceA: f32, distanceB: f32, smoothing: f32) -> f32 \x7b\n  let h = clamp(0.5 - 0.5 * (distanceB + distanceA) / smoothing, 0.0, 1.0);\n  return mix(distanceA, -distanceB, h) + smoothing * h * (1.0 - h);\n\x7d"

/-- Source text of `sdfSmoothIntersect` (transcribed from src/sdf-operations.ts). -/
def sdfSmoothIntersect : String :=
  "fn sdfSmoothIntersect(distanceA: f32, distanceB: f32, smoothing: f32) -> f32 \x7b\n  let h = clamp(0.5 - 0.5 * (distanceB - distanceA) / smoothing, 0.0, 1.0);\n  return mix(distanceB, distanceA, h) + smoothing * h * (1.0 - h);\n\x7d"

/-- Source text of `sdfChamferUnion` (transcribed from src/sdf-operations.ts). -/
def sdfChamferUnion : String :=
  "fn sdfChamferUnion(distanceA: f32, distanceB: f32, radius: f32) -> f32 \x7b\n  return min(min(distanceA, distanceB), (distanceA - radius + distanceB) * 0.5);\n\x7d"

/-- Source text of `sdfChamferSubtract` (transcribed from src/sdf-operations.ts). -/
def sdfChamferSubtract : String :=
  "fn sdfChamferSubtract(distanceA: f32, distanceB: f32, radius: f32) -> f32 \x7b\n  return max(max(distanceA, -distanceB), (distanceA + radius - distanceB) * 0.5);\n\x7d"

/-- Source text of `sdfChamferIntersect` (transcribed from src/sdf-operations.ts). -/
def sdfChamferIntersect : String :=
  "fn sdfChamferIntersect(distanceA: f32, distanceB: f32, radius: f32) -> f32 \x7b\n  return max(max(distanceA, distanceB), (distanceA + radius + distanceB) * 0.5);\n\x7d"

/-- Source text of `sdfTranslate` (transcribed from src/sdf-transforms.ts). -/
def sdfTranslate : String :=
  "fn sdfTranslate(position: vec3<f32>, offset: vec3<f32>) -> vec3<f32> \x7b\n  return position - offset;\n\x7d"

/-- Source text of `sdfScale` (transcribed from src/sdf-transforms.ts). -/
def sdfScale : String :=
  "fn sdfScale(position: vec3<f32>, scale: vec3<f32>) -> vec3<f32> \x7b\n  return position / scale;\n\x7d"

/-- Source text of `sdfRotate` (transcribed from src/sdf-transforms.ts). -/
def sdfRotate : String :=
  "fn sdfRotate(position: vec3<f32>, angles: vec3<f32>, pivot: vec3<f32>) -> vec3<f32> \x7b\n  // First translate to origin relative to pivot point\n  let centered = position - pivot;\n  \n  // Create rotation matrices (inverse rotation = negative angles)\n  let cx = cos(-angles.x);\n  let sx = sin(-angles.x);\n  let cy = cos(-angles.y);\n  let sy = sin(-angles.y);\n  let cz = cos(-angles.z);\n  let sz = sin(-angles.z);\n  \n  // Rotate around X axis\n  let rx = vec3<f32>(\n    centered.x,\n    centered.y * cx - centered.z * sx,\n    centered.y * sx + centered.z * cx\n  );\n  \n  // Rotate around Y axis\n  let ry = vec3<f32>(\n    rx.x * cy + rx.z * sy,\n    rx.y,\n    -rx.x * sy + rx.z * cy\n  );\n  \n  // Rotate around Z axis\n  let rz = vec3<f32>(\n    ry.x * cz - ry.y * sz,\n    ry.x * sz + ry.y * cz,\n    ry.z\n  );\n  \n  // Translate back from pivot point\n  return rz + pivot;\n\x7d"

/-- Source text of `sdfMirror` (transcribed from src/sdf-transforms.ts). -/
def sdfMirror : String :=
  "fn sdfMirror(position: vec3<f32>, normal: vec3<f32>, offset: f32) -> vec3<f32> \x7b\n  let n = normalize(normal);\n  let d = dot(position, n) - offset;\n  return position - 2.0 * max(0.0, d) * n;\n\x7d"

/-- Source text of `sdfPolarRepeat` (transcribed from src/sdf-transforms.ts). -/
def sdfPolarRepeat : String :=
  "fn sdfPolarRepeat(position: vec3<f32>, count: f32, axis: vec3<f32>) -> vec3<f32> \x7b\n  let n = normalize(axis);\n  \n  // Project position onto axis\n  let axisProj = dot(position, n) * n;\n  let radial = position - axisProj;\n  \n  // Get angle in the plane perpendicular to axis\n  let radius = length(radial);\n  if (radius < 0.001) \x7b\n    return position;\n  \x7d\n  \n  let angle = atan2(radial.y, radial.x);\n  let sectorAngle = 6.28318530718 / count;\n  let snappedAngle = round(angle / sectorAngle) * sectorAngle;\n  \n  // Reconstruct position with snapped angle\n  let newRadial = radius * vec2<f32>(cos(snappedAngle), sin(snappedAngle));\n  \n  // This assumes axis is along Z - for general axis, need proper basis vectors\n  return axisProj + vec3<f32>(newRadial.x, newRadial.y, 0.0);\n\x7d"

/-- Source text of `sdfCylindricalRepeat` (transcribed from src/sdf-transforms.ts). -/
def sdfCylindricalRepeat : String :=
  "fn sdfCylindricalRepeat(position: vec3<f32>, angleRepeat: f32, heightRepeat: f32, axis: vec3<f32>) -> vec3<f32> \x7b\n  let n = normalize(axis);\n  \n  // Project onto axis for height\n  let h = dot(position, n);\n  let radial = position - h * n;\n  \n  // Repeat in height\n  let newH = h - heightRepeat * round(h / heightRepeat);\n  \n  // Repeat in angle\n  let radius = length(radial);\n  if (radius < 0.001) \x7b\n    return newH * n;\n  \x7d\n  \n  let angle = atan2(radial.y, radial.x);\n  let sectorAngle = 6.28318530718 / angleRepeat;\n  let newAngle = angle - sectorAngle * round(angle / sectorAngle);\n  \n  let newRadial = radius * vec2<f32>(cos(newAngle), sin(newAngle));\n  \n  // This assumes axis is along Z - for general axis, need proper basis vectors\n  return newH * n + vec3<f32>(newRadial.x, newRadial.y, 0.0);\n\x7d"

/-- Source text of `sdfSphericalRepeat` (transcribed from src/sdf-transforms.ts). -/
def sdfSphericalRepeat : String :=
  "fn sdfSphericalRepeat(position: vec3<f32>, phiRepeat: f32, thetaRepeat: f32) -> vec3<f32> \x7b\n  let radius = length(position);\n  if (radius < 0.001) \x7b\n    return position;\n  \x7d\n  \n  // Convert to spherical coordinates\n  let theta = acos(clamp(position.z / radius, -1.0, 1.0));\n  let phi = atan2(position.y, position.x);\n  \n  // Repeat in spherical coordinates\n  let phiSector = 6.28318530718 / phiRepeat;\n  let thetaSector = 3.14159265359 / thetaRepeat;\n  \n  let newPhi = phi - phiSector * round(phi / phiSector);\n  let newTheta = theta - thetaSector * round(theta / thetaSector);\n  \n  // Convert back to Cartesian\n  let sinTheta = sin(newTheta);\n  return radius * vec3<f32>(\n    sinTheta * cos(newPhi),\n    sinTheta * sin(newPhi),\n    cos(newTheta)\n  );\n\x7d"

/-- Source text of `sdfTwist` (transcribed from src/sdf-modifiers.ts). -/
def sdfTwist : String :=
  "fn sdfTwist(position: vec3<f32>, angle: f32, axis: vec3<f32>) -> vec3<f32> \x7b\n  // Normalize the axis\n  let axisNorm = normalize(axis);\n  \n  // Project position onto the twist axis\n  let proj = dot(position, axisNorm);\n  \n  // Calculate twist angle based on projection along axis\n  let twistAngle = proj * angle;\n  \n  // Get sin and cos of the twist angle\n  let s = sin(twistAngle);\n  let c = cos(twistAngle);\n  \n  // Calculate vector from axis (the part that will be rotated)\n  let axisProj = proj * axisNorm;\n  let fromAxis = position - axisProj;\n  \n  // Find a perpendicular vector for the rotation\n  let basis1 = normalize(fromAxis);\n  let basis2 = cross(axisNorm, basis1);\n  \n  // Rotate using the basis vectors\n  let rotated = axisProj + \n                basis1 * length(fromAxis) * c + \n                basis2 * length(fromAxis) * s;\n  \n  return rotated;\n\x7d"

/-- Source text of `sdfBend` (transcribed from src/sdf-modifiers.ts). -/
def sdfBend : String :=
  "fn sdfBend(position: vec3<f32>, angle: f32, axis: vec3<f32>, center: vec3<f32>) -> vec3<f32> \x7b\n  // Normalize the bend axis\n  let axisNorm = normalize(axis);\n  \n  // Translate position relative to bend center\n  let localPos = position - center;\n  \n  // Find perpendicular vectors to the bend axis to define the bend plane\n  var perpVec1: vec3<f32>;\n  if (abs(axisNorm.y) < 0.999) \x7b\n    perpVec1 = normalize(cross(vec3<f32>(0.0, 1.0, 0.0), axisNorm));\n  \x7d else \x7b\n    perpVec1 = normalize(cross(vec3<f32>(1.0, 0.0, 0.0), axisNorm));\n  \x7d\n  let perpVec2 = normalize(cross(axisNorm, perpVec1));\n  \n  // Project the position onto the perpendicular vectors\n  let proj1 = dot(localPos, perpVec1);\n  let proj2 = dot(localPos, perpVec2);\n  let axisProj = dot(localPos, axisNorm);\n  \n  // Calculate radius for the bend\n  let radius = proj1;\n  \n  // Calculate the angle based on the distance along the bend direction\n  let bendAngle = proj2 * angle;\n  \n  // Calculate the bent position using polar coordinates\n  let c = cos(bendAngle);\n  let s = sin(bendAngle);\n  \n  // Apply the transformation\n  let bentPos = center + \n                axisNorm * axisProj +\n                perpVec1 * (c * radius) +\n                perpVec2 * (s * radius);\n  \n  return bentPos;\n\x7d"

/-- Source text of `sdfTaper` (transcribed from src/sdf-modifiers.ts). -/
def sdfTaper : String :=
  "fn sdfTaper(position: vec3<f32>, amount: f32, axis: vec3<f32>, height: f32, offset: f32) -> vec3<f32> \x7b\n  let axisNorm = normalize(axis);\n  \n  // Project position onto the taper axis\n  let axisPos = dot(position, axisNorm) - offset;\n  \n  // Calculate taper factor based on position along axis\n  let t = clamp(axisPos / height, 0.0, 1.0);\n  let taperFactor = 1.0 - amount * t;\n  \n  // Apply taper to the perpendicular components\n  let axisComponent = axisPos * axisNorm;\n  let perpComponent = position - dot(position, axisNorm) * axisNorm;\n  \n  return axisComponent + perpComponent * taperFactor;\n\x7d"

/-- Modelled from the spec: the current `src/sdf-modifiers.ts` revision is not in the pack; the body is the previous revision with the `//! requires hash3D` marker line prepended (the repository tests assert exactly the dependency `hash3D`). -/
def sdfDisplace : String :=
  "//! requires hash3D\nfn sdfDisplace(position: vec3<f32>, amount: f32, frequency: f32, seed: f32) -> vec3<f32> \x7b\n  // Simple noise function for displacement\n  let hash3D = fn(p: vec3<f32>) -> vec3<f32> \x7b\n    var p3 = fract(p * vec3<f32>(0.1031, 0.1030, 0.0973));\n    p3 += dot(p3, p3.yxz + 33.33);\n    return fract((p3.xxy + p3.yxx) * p3.zyx) * 2.0 - 1.0;\n  \x7d;\n  \n  let noisePos = position * frequency + seed;\n  let displacement = hash3D(noisePos) * amount;\n  \n  return position + displacement;\n\x7d"

/-- Modelled from the spec: the current `src/sdf-modifiers.ts` revision is not in the pack; the body is the previous revision with the `//! requires warpNoise3D` marker line prepended (the repository tests assert the transitive dependencies `hash31`, `noise3D` and `warpNoise3D`). -/
def sdfDomainRepeat : String :=
  "//! requires warpNoise3D\nfn sdfDomainRepeat(position: vec3<f32>, cellSize: vec3<f32>, warpAmount: f32, warpScale: f32, seed: f32) -> vec3<f32> \x7b\n  // Simple 3D hash function for warping\n  let hash31 = fn(p: vec3<f32>) -> f32 \x7b\n    var p3 = fract(p * vec3<f32>(0.1031, 0.1030, 0.0973));\n    p3 += dot(p3, p3.yxz + 33.33);\n    return fract((p3.x + p3.y) * p3.z);\n  \x7d;\n  \n  // Simplex-like 3D noise function for warping\n  let noise3D = fn(x: vec3<f32>) -> f32 \x7b\n    let p = floor(x);\n    let f = fract(x);\n    \n    return mix(\n      mix(\n        mix(hash31(p), \n            hash31(p + vec3<f32>(1.0, 0.0, 0.0)), \n            f.x),\n        mix(hash31(p + vec3<f32>(0.0, 1.0, 0.0)), \n            hash31(p + vec3<f32>(1.0, 1.0, 0.0)), \n            f.x),\n        f.y),\n      mix(\n        mix(hash31(p + vec3<f32>(0.0, 0.0, 1.0)), \n            hash31(p + vec3<f32>(1.0, 0.0, 1.0)), \n            f.x),\n        mix(hash31(p + vec3<f32>(0.0, 1.0, 1.0)), \n            hash31(p + vec3<f32>(1.0, 1.0, 1.0)), \n            f.x),\n        f.y),\n      f.z);\n  \x7d;\n  \n  // FBM (Fractal Brownian Motion) noise for domain warping\n  let warpNoise = fn(x: vec3<f32>, seedVal: f32) -> vec3<f32> \x7b\n    let p = x + seedVal;\n    var nx = 0.0;\n    var ny = 0.0;\n    var nz = 0.0;\n    var w = 0.5;\n    \n    for (var i = 0; i < 3; i++) \x7b\n      nx += w * noise3D(p);\n      ny += w * noise3D(p + vec3<f32>(13.5, 41.3, 17.8));\n      nz += w * noise3D(p + vec3<f32>(31.2, 23.7, 11.9));\n      p *= 2.0;\n      w *= 0.5;\n    \x7d\n    \n    return vec3<f32>(nx, ny, nz) * 2.0 - 1.0;\n  \x7d;\n  \n  // Calculate warping for position\n  let warp = warpNoise(position * warpScale, seed) * warpAmount;\n  \n  // Apply warping to position\n  let warpedPos = position + warp;\n  \n  // Calculate repetition\n  return warpedPos - cellSize * round(warpedPos / cellSize);\n\x7d"

/-- Source text of `sdfFiniteRepeat` (transcribed from src/sdf-modifiers.ts). -/
def sdfFiniteRepeat : String :=
  "fn sdfFiniteRepeat(position: vec3<f32>, spacing: vec3<f32>, count: vec3<f32>) -> vec3<f32> \x7b\n  let id = clamp(round(position / spacing), -count * 0.5, count * 0.5);\n  return position - spacing * id;\n\x7d"

/-- Source text of `sdfInfiniteRepeat` (transcribed from src/sdf-modifiers.ts). -/
def sdfInfiniteRepeat : String :=
  "fn sdfInfiniteRepeat(position: vec3<f32>, spacing: vec3<f32>) -> vec3<f32> \x7b\n  return position - spacing * round(position / spacing);\n\x7d"

/-- Modelled from the spec: `src/sdf-utils.ts` is not in the pack; the body is a reconstruction. It declares no dependencies, and no claim depends on its body text beyond that. -/
def sdfToSolid : String :=
  "fn sdfToSolid(distance: f32) -> f32 \x7b\n  return step(distance, 0.0);\n\x7d"

/-- Modelled from the spec: `src/sdf-utils.ts` is not in the pack; the body is a reconstruction. It declares no dependencies, and no claim depends on its body text beyond that. -/
def sdfToStroke : String :=
  "fn sdfToStroke(distance: f32, width: f32) -> f32 \x7b\n  return step(abs(distance), width);\n\x7d"

/-- Modelled from the spec: `src/sdf-utils.ts` is not in the pack; the body is a reconstruction. It declares no dependencies, and no claim depends on its body text beyond that. -/
def sdfToSmoothSolid : String :=
  "fn sdfToSmoothSolid(distance: f32, smoothing: f32) -> f32 \x7b\n  return smoothstep(smoothing, -smoothing, distance);\n\x7d"

/-- Modelled from the spec: `src/sdf-utils.ts` is not in the pack; the body is a reconstruction. It declares no dependencies, and no claim depends on its body text beyond that. -/
def sdfToSmoothStroke : String :=
  "fn sdfToSmoothStroke(distance: f32, width: f32, smoothing: f32) -> f32 \x7b\n  return smoothstep(width + smoothing, width - smoothing, abs(distance));\n\x7d"

/-- The function registry of `src/functions.ts`: an association list
from function name to WGSL source text, in declaration order. -/
def wgslFns : List (String × String) :=
  [("elasticWave", elasticWave),
   ("smoothStep", smoothStep),
   ("smoothStepVec2", smoothStepVec2),
   ("rotate2D", rotate2D),
   ("exponentialRamp", exponentialRamp),
   ("logisticCurve", logisticCurve),
   ("stepSequence", stepSequence),
   ("taylorInvSqrt4", taylorInvSqrt4),
   ("noise2D", noise2D),
   ("hash22", hash22),
   ("fbm2D", fbm2D),
   ("fbm3D", fbm3D),
   ("hash1D", hash1D),
   ("hash31", hash31),
   ("hash3D", hash3D),
   ("noise3D", noise3D),
   ("warpNoise3D", warpNoise3D),
   ("pcg", pcg),
   ("pcg2d", pcg2d),
   ("pcg3d", pcg3d),
   ("pcg4d", pcg4d),
   ("xxhash32", xxhash32),
   ("xxhash322d", xxhash322d),
   ("xxhash323d", xxhash323d),
   ("xxhash324d", xxhash324d),
   ("rand11Sin", rand11Sin),
   ("rand22Sin", rand22Sin),
   ("valueNoise1D", valueNoise1D),
   ("valueNoise2D", valueNoise2D),
   ("mod289", mod289),
   ("perm4", perm4),
   ("valueNoise3D", valueNoise3D),
   ("perlinNoise2D", perlinNoise2D),
   ("perlinNoise3D", perlinNoise3D),
   ("simplexNoise2D", simplexNoise2D),
   ("simplexNoise3D", simplexNoise3D),
   ("simplexNoise4D", simplexNoise4D),
   ("sdfCircle", sdfCircle),
   ("sdfBox", sdfBox),
   ("sdfUnion", sdfUnion),
   ("sdfIntersection", sdfIntersection),
   ("sdfSubtraction", sdfSubtraction),
   ("sdfBoxFrame", sdfBoxFrame),
   ("sdfCappedTorus", sdfCappedTorus),
   ("sdfCapsule", sdfCapsule),
   ("sdfCone", sdfCone),
   ("sdfCylinder", sdfCylinder),
   ("sdfEllipsoid", sdfEllipsoid),
   ("sdfGyroid", sdfGyroid),
   ("sdfHexagonalPrism", sdfHexagonalPrism),
   ("sdfIcosahedron", sdfIcosahedron),
   ("sdfJulia", sdfJulia),
   ("sdfOctahedron", sdfOctahedron),
   ("sdfPlane", sdfPlane),
   ("sdfPyramid", sdfPyramid),
   ("sdfRhombus", sdfRhombus),
   ("sdfRoundBox", sdfRoundBox),
   ("sdfRoundedCone", sdfRoundedCone),
   ("sdfRoundedCylinder", sdfRoundedCylinder),
   ("sdfSphere", sdfSphere),
   ("sdfTetrahedron", sdfTetrahedron),
   ("sdfTorus", sdfTorus),
   ("sdfTriangularPrism", sdfTriangularPrism),
   ("palette", palette),
   ("linearToSrgb", linearToSrgb),
   ("srgbToLinear", srgbToLinear),
   ("hueToRgb", hueToRgb),
   ("hslToRgb", hslToRgb),
   ("bezierCubic", bezierCubic),
   ("easeIn", easeIn),
   ("easeOut", easeOut),
   ("easeInOut", easeInOut),
   ("elasticIn", elasticIn),
   ("elasticOut", elasticOut),
   ("backIn", backIn),
   ("backOut", backOut),
   ("springPhysics", springPhysics),
   ("triangleWave", triangleWave),
   ("sawtoothWave", sawtoothWave),
   ("squareWave", squareWave),
   ("pulseWave", pulseWave),
   ("chirpWave", chirpWave),
   ("noiseWave", noiseWave),
   ("sdfOpUnion", sdfOpUnion),
   ("sdfOpSubtract", sdfOpSubtract),
   ("sdfOpIntersect", sdfOpIntersect),
   ("sdfSmoothUnion", sdfSmoothUnion),
   ("sdfSmoothSubtract", sdfSmoothSubtract),
   ("sdfSmoothIntersect", sdfSmoothIntersect),
   ("sdfChamferUnion", sdfChamferUnion),
   ("sdfChamferSubtract", sdfChamferSubtract),
   ("sdfChamferIntersect", sdfChamferIntersect),
   ("sdfTranslate", sdfTranslate),
   ("sdfScale", sdfScale),
   ("sdfRotate", sdfRotate),
   ("sdfMirror", sdfMirror),
   ("sdfPolarRepeat", sdfPolarRepeat),
   ("sdfCylindricalRepeat", sdfCylindricalRepeat),
   ("sdfSphericalRepeat", sdfSphericalRepeat),
   ("sdfTwist", sdfTwist),
   ("sdfBend", sdfBend),
   ("sdfTaper", sdfTaper),
   ("sdfDisplace", sdfDisplace),
   ("sdfDomainRepeat", sdfDomainRepeat),
   ("sdfFiniteRepeat", sdfFiniteRepeat),
   ("sdfInfiniteRepeat", sdfInfiniteRepeat),
   ("sdfToSolid", sdfToSolid),
   ("sdfToStroke", sdfToStroke),
   ("sdfToSmoothSolid", sdfToSmoothSolid),
   ("sdfToSmoothStroke", sdfToSmoothStroke)]
/-! ## Registry lookup and direct dependencies

`src/index.ts` and `src/dependencies.ts` read the registry with the
JavaScript member access `wgslFns[name]` followed by a truthiness test
(`if (!fn)` respectively `if (!functionCode)`), which treats both a
missing name and an empty source string as absent. -/

/-- Look up a name in the registry and apply the JavaScript truthiness
test: `none` when the name is absent or its source text is empty. -/
def foundSrc (name : String) : Option String :=
  match wgslFns.find? (fun p => p.1 == name) with
  | none => none
  | some p => if p.2 = "" then none else some p.2

/-- Source text of a name with the empty string as default; equal to
the actual source text whenever `foundSrc` succeeds. -/
def srcD (name : String) : String :=
  (foundSrc name).getD ""

/-- Direct dependencies of a function: parse the magic comment of its
registry source text, or return the empty list when the registry has no
(truthy) entry for the name — `getDirectDependencies` of
`src/dependencies.ts`. -/
def getDirectDependencies (functionName : String) : List String :=
  match foundSrc functionName with
  | none => []
  | some code => parseDependencies code

/-! ## The recursive dependency resolver

`resolveDependencies` of `src/dependencies.ts` recurses over declared
dependencies, guarded by a mutable `Set` of visited names.  The set is
modelled by an insertion-ordered list threaded through the computation.
The unbounded JavaScript recursion is modelled with a fuel parameter:
one unit of fuel is consumed for processing each dependency list entry,
which makes the function structurally recursive on the fuel; theorem
`C9_resolver_terminates` proves that the fixed fuel used by
`resolveDependencies` is never exhausted, so the fuelled function
agrees with the unbounded recursion. -/

/-- Append an element to the accumulator unless it is already present:
`if (!allDeps.includes(dep)) allDeps.push(dep)`. -/
def pushAbs (acc : List String) (d : String) : List String :=
  if acc.contains d then acc else acc ++ [d]

/-- The dependency loop of `resolveDependencies`, processing the list
of declared dependencies of the current function.  For each dependency
`d`: when `d` is already visited the recursive call returns the empty
list immediately, and `d` itself is then appended if absent; otherwise
`d` is marked visited, its own dependency list is processed with a
fresh local accumulator, the result is appended, and then `d` itself is
appended if absent. -/
def resolveGo : Nat → List String → List String → List String →
    Option (List String × List String)
  | _, [], acc, visited => some (acc, visited)
  | 0, _ :: _, _, _ => none
  | fuel + 1, d :: ds, acc, visited =>
    if visited.contains d then
      resolveGo fuel ds (pushAbs acc d) visited
    else
      match resolveGo fuel (getDirectDependencies d) [] (visited ++ [d]) with
      | none => none
      | some (r, visited') => resolveGo fuel ds (pushAbs (acc ++ r) d) visited'

/-- Fuel used by the resolver entry points; proved sufficient for every
input in `C9_resolver_terminates`. -/
def resolverFuel : Nat := 1000

/-- `resolveDependencies` of `src/dependencies.ts` at a given fuel:
resolve the transitive dependencies of one function.  Returns the
dependency list in dependency order together with the final visited set
(the JavaScript function mutates the caller-supplied `Set`; the
returned list models that mutation). -/
def resolveDependenciesF (fuel : Nat) (functionName : String)
    (resolved : List String) : Option (List String × List String) :=
  if resolved.contains functionName then some ([], resolved)
  else resolveGo fuel (getDirectDependencies functionName) []
    (resolved ++ [functionName])

/-- `resolveDependencies` of `src/dependencies.ts`; by
`C9_resolver_terminates` the result is independent of the fuel from
`resolverFuel` on, so this is the unbounded JavaScript recursion. -/
def resolveDependencies (functionName : String) (resolved : List String) :
    Option (List String × List String) :=
  resolveDependenciesF resolverFuel functionName resolved

/-- The loop of `resolveAllDependencies`: resolve each requested name
with a fresh visited set and insert its dependencies into the global
insertion-ordered dependency set. -/
def resolveAllAux : List String → List String → Option (List String)
  | [], allDeps => some allDeps
  | n :: ns, allDeps =>
    match resolveDependencies n [] with
    | none => none
    | some (deps, _) => resolveAllAux ns (deps.foldl pushAbs allDeps)

/-- `resolveAllDependencies` of `src/dependencies.ts`: all dependencies
of the requested functions, deduplicated, in dependency order. -/
def resolveAllDependencies (functionNames : List String) : Option (List String) :=
  resolveAllAux functionNames []

/-! ## The source assembler -/

/-- The final ordered name list of `getFns`: resolved dependencies
followed by the requested names not already among them —
`[...dependencies, ...functionNames.filter(name => !dependencies.includes(name))]`. -/
def allFunctionNames (dependencies functionNames : List String) : List String :=
  dependencies ++ functionNames.filter (fun name => !(dependencies.contains name))

/-- The emission loop of `getFns`: look up each name, throwing on a
missing (or empty) entry, and append its source text to the output
block list unless an identical text was already emitted (the JavaScript
code keeps the emitted texts in the `seen` set, which always holds
exactly the elements of the output array, so membership in the output
list models the `seen` test). -/
def emitBlocks : List String → List String → Except String (List String)
  | [], functions => .ok functions
  | name :: names, functions =>
    match foundSrc name with
    | none => .error ("WGSL function \"" ++ name ++ "\" not found")
    | some fn =>
      if functions.contains fn then emitBlocks names functions
      else emitBlocks names (functions ++ [fn])

/-- Join the emitted blocks with the blank-line separator:
`functions.join('\n\n')`. -/
def joinBlocks : List String → String
  | [] => ""
  | [b] => b
  | b :: c :: cs => b ++ "\n\n" ++ joinBlocks (c :: cs)

/-- `getFns` of `src/index.ts`, stopped before the final join: the list
of emitted source blocks.  The `.error` branch for exhausted fuel is
unreachable (`C9_resolver_terminates`). -/
def getFnsList (functionNames : List String) : Except String (List String) :=
  match resolveAllDependencies functionNames with
  | none => .error "resolver out of fuel"
  | some dependencies => emitBlocks (allFunctionNames dependencies functionNames) []

/-- `getFns` of `src/index.ts`: the combined source string for the
requested functions and their transitive dependencies, or the thrown
error message as `Except.error`. -/
def getFns (functionNames : List String) : Except String String :=
  (getFnsList functionNames).map joinBlocks
/-! ## List machinery

Helper lemmas about `pushAbs`, the insertion-ordered deduplicating
fold, and order/closure predicates on name lists.  `CompleteIn L x`
says every direct dependency of `x` occurs in `L`; `OrderedL L` says
every occurrence in `L` is preceded by all of its direct dependencies
(the dependency-first ordering invariant). -/

theorem contains_iff {l : List String} {a : String} :
    l.contains a = true ↔ a ∈ l := by
  simp [List.contains_iff_exists_mem_beq, beq_iff_eq]

theorem pushAbs_eq (acc : List String) (d : String) :
    pushAbs acc d = if d ∈ acc then acc else acc ++ [d] := by
  unfold pushAbs
  by_cases h : d ∈ acc
  · simp [h, contains_iff.mpr h]
  · have : acc.contains d = false := by
      cases hc : acc.contains d
      · rfl
      · exact absurd (contains_iff.mp hc) h
    simp [h, this]

theorem mem_pushAbs {acc : List String} {d x : String} :
    x ∈ pushAbs acc d ↔ x ∈ acc ∨ x = d := by
  rw [pushAbs_eq]
  by_cases h : d ∈ acc
  · simp only [h, if_true]
    constructor
    · exact fun hx => Or.inl hx
    · rintro (hx | rfl) <;> assumption
  · simp [h, List.mem_append]

theorem pushAbs_sub {acc : List String} {d : String} : acc ⊆ pushAbs acc d := by
  intro x hx; exact mem_pushAbs.mpr (Or.inl hx)

theorem mem_pushAbs_self {acc : List String} {d : String} : d ∈ pushAbs acc d :=
  mem_pushAbs.mpr (Or.inr rfl)

theorem pushAbs_append {acc : List String} {d : String} :
    ∃ t, pushAbs acc d = acc ++ t := by
  rw [pushAbs_eq]
  by_cases h : d ∈ acc
  · exact ⟨[], by simp [h]⟩
  · exact ⟨[d], by simp [h]⟩

theorem nodup_pushAbs {acc : List String} {d : String} (h : acc.Nodup) :
    (pushAbs acc d).Nodup := by
  rw [pushAbs_eq]
  by_cases hd : d ∈ acc
  · simpa [hd]
  · simp only [hd, if_false]
    simpa [List.nodup_append] using ⟨h, hd⟩

/-- The insertion-ordered deduplicating fold used by `Set` insertion. -/
theorem mem_foldl_pushAbs {L acc : List String} {x : String} :
    x ∈ L.foldl pushAbs acc ↔ x ∈ acc ∨ x ∈ L := by
  induction L generalizing acc with
  | nil => simp
  | cons b bs ih =>
    simp only [List.foldl_cons, ih, mem_pushAbs, List.mem_cons]
    tauto

theorem nodup_foldl_pushAbs {L acc : List String} (h : acc.Nodup) :
    (L.foldl pushAbs acc).Nodup := by
  induction L generalizing acc with
  | nil => simpa
  | cons b bs ih => exact ih (nodup_pushAbs h)

theorem foldl_pushAbs_prefix {L acc : List String} :
    ∃ t, L.foldl pushAbs acc = acc ++ t := by
  induction L generalizing acc with
  | nil => exact ⟨[], by simp⟩
  | cons b bs ih =>
    obtain ⟨t₁, ht₁⟩ := @pushAbs_append acc b
    obtain ⟨t₂, ht₂⟩ := @ih (pushAbs acc b)
    rw [ht₁] at ht₂
    exact ⟨t₁ ++ t₂, by simp [List.foldl_cons, ht₁, ht₂, List.append_assoc]⟩

/-! ### Dependency-first ordering predicates -/

/-- Every `g`-dependency of `x` occurs in `L`.  Instantiated with the
name-level dependency function `getDirectDependencies` and with the
content-level dependency function on emitted source texts. -/
def CompleteIn (g : String → List String) (L : List String) (x : String) : Prop :=
  ∀ v ∈ g x, v ∈ L

/-- Every occurrence in `L` is preceded by all of its
`g`-dependencies. -/
def OrderedL (g : String → List String) (L : List String) : Prop :=
  ∀ p u q, L = p ++ u :: q → CompleteIn g p u

variable {g : String → List String}

theorem completeIn_mono {L L' : List String} {x : String}
    (hsub : L ⊆ L') (h : CompleteIn g L x) : CompleteIn g L' x :=
  fun v hv => hsub (h v hv)

theorem orderedL_nil : OrderedL g [] := by
  intro p u q h
  exact absurd h (by simp)

theorem orderedL_append {A B : List String}
    (hA : OrderedL g A) (hB : OrderedL g B) : OrderedL g (A ++ B) := by
  intro p u q h
  rcases List.append_eq_append_iff.mp h with ⟨m, hm1, hm2⟩ | ⟨m, hm1, hm2⟩
  · -- p = A ++ m and B = m ++ u :: q : the split point lies inside B
    subst hm1
    exact completeIn_mono (List.subset_append_right _ _) (hB m u q hm2)
  · -- A = p ++ m and u :: q = m ++ B
    cases m with
    | nil =>
      simp only [List.nil_append] at hm2
      simp only [List.append_nil] at hm1
      subst hm1
      exact completeIn_mono (by simp) (hB [] u q (by simpa using hm2.symm))
    | cons c m' =>
      have hu : u = c ∧ q = m' ++ B := by
        have := hm2
        simp only [List.cons_append] at this
        exact ⟨by injection this, by injection this⟩
      rcases hu with ⟨rfl, rfl⟩
      exact hA p u m' hm1

theorem orderedL_snoc {L : List String} {d : String}
    (h : OrderedL g L) (hd : CompleteIn g L d) : OrderedL g (L ++ [d]) := by
  intro p u q hpq
  rcases List.append_eq_append_iff.mp hpq with ⟨m, hm1, hm2⟩ | ⟨m, hm1, hm2⟩
  · -- p = L ++ m, [d] = m ++ u :: q
    cases m with
    | nil =>
      simp only [List.nil_append] at hm2
      have hu : u = d := by injection hm2.symm
      subst hu
      subst hm1
      rw [List.append_nil]
      exact hd
    | cons c m' =>
      exfalso
      have := congrArg List.length hm2
      simp at this
  · -- L = p ++ m, u :: q = m ++ [d]
    cases m with
    | nil =>
      simp only [List.nil_append] at hm2
      have hu : u = d := by injection hm2
      subst hu
      have : p = L := by simpa using hm1.symm
      subst this
      exact hd
    | cons c m' =>
      have hu : u = c := by
        simp only [List.cons_append] at hm2
        injection hm2
      subst hu
      exact h p u m' hm1

theorem orderedL_pushAbs {L : List String} {d : String}
    (h : OrderedL g L) (hd : CompleteIn g L d) : OrderedL g (pushAbs L d) := by
  rw [pushAbs_eq]
  by_cases hc : d ∈ L
  · simpa [hc]
  · simpa [hc] using orderedL_snoc h hd

/-- Fold-level ordering: pushing an ordered stream into the
deduplicating fold preserves the ordering invariant, provided every
pushed element's dependencies already occur in the accumulator or
earlier in the stream. -/
theorem orderedL_foldl_pushAbs {L acc : List String}
    (hacc : OrderedL g acc)
    (hrel : ∀ p u q, L = p ++ u :: q → ∀ v ∈ g u, v ∈ acc ∨ v ∈ p) :
    OrderedL g (L.foldl pushAbs acc) := by
  induction L generalizing acc with
  | nil => simpa
  | cons b bs ih =>
    simp only [List.foldl_cons]
    apply ih
    · apply orderedL_pushAbs hacc
      intro v hv
      rcases hrel [] b bs (by simp) v hv with h | h
      · exact h
      · exact absurd h (by simp)
    · intro p u q hpq v hv
      rcases hrel (b :: p) u q (by simp [hpq]) v hv with h | h
      · exact Or.inl (pushAbs_sub h)
      · rcases List.mem_cons.mp h with rfl | h
        · exact Or.inl mem_pushAbs_self
        · exact Or.inr h

/-- An ordered stream entered into the fold with an empty initial
accumulator stays ordered. -/
theorem orderedL_dedup {L : List String} (h : OrderedL g L) :
    OrderedL g (L.foldl pushAbs []) := by
  apply orderedL_foldl_pushAbs orderedL_nil
  intro p u q hpq v hv
  exact Or.inr (h p u q hpq v hv)
/-! ## Properties of the resolver loop

The lemmas in this section are proved by induction on the fuel,
following the recursion structure of `resolveGo`. -/

/-- Set of all names that occur in some dependency declaration of the
registry.  Recursive calls of the resolver only ever expand such
names. -/
def markerNames : List String :=
  (wgslFns.map (fun p => parseDependencies p.2)).flatten

theorem gdd_sub_markerNames (x : String) :
    ∀ v ∈ getDirectDependencies x, v ∈ markerNames := by
  intro v hv
  unfold getDirectDependencies at hv
  cases hf : foundSrc x with
  | none => rw [hf] at hv; simp at hv
  | some code =>
    rw [hf] at hv
    unfold foundSrc at hf
    cases hfind : wgslFns.find? (fun p => p.1 == x) with
    | none => rw [hfind] at hf; simp at hf
    | some p =>
      rw [hfind] at hf
      by_cases hp : p.2 = ""
      · simp [hp] at hf
      · simp only [hp, if_false, Option.some.injEq] at hf
        subst hf
        have hmem : p ∈ wgslFns := List.mem_of_find?_eq_some hfind
        exact List.mem_flatten.mpr
          ⟨parseDependencies p.2, List.mem_map.mpr ⟨p, hmem, rfl⟩, hv⟩

/-- Shape of a successful loop run: the result extends the accumulator
and the final visited list extends the initial one. -/
theorem resolveGo_shape :
    ∀ {f : Nat} {ds acc s r s' : List String},
      resolveGo f ds acc s = some (r, s') →
      (∃ t, r = acc ++ t) ∧ (∃ e, s' = s ++ e) := by
  intro f
  induction f with
  | zero =>
    intro ds acc s r s' h
    cases ds with
    | nil =>
      simp only [resolveGo, Option.some.injEq, Prod.mk.injEq] at h
      exact ⟨⟨[], by simp [h.1]⟩, ⟨[], by simp [h.2]⟩⟩
    | cons d ds => simp [resolveGo] at h
  | succ f ih =>
    intro ds acc s r s' h
    cases ds with
    | nil =>
      simp only [resolveGo, Option.some.injEq, Prod.mk.injEq] at h
      exact ⟨⟨[], by simp [h.1]⟩, ⟨[], by simp [h.2]⟩⟩
    | cons d ds =>
      simp only [resolveGo] at h
      by_cases hv : s.contains d
      · rw [if_pos hv] at h
        obtain ⟨⟨t, ht⟩, he⟩ := ih h
        obtain ⟨t₀, ht₀⟩ := @pushAbs_append acc d
        exact ⟨⟨t₀ ++ t, by rw [ht, ht₀, List.append_assoc]⟩, he⟩
      · rw [if_neg hv] at h
        cases hinner : resolveGo f (getDirectDependencies d) [] (s ++ [d]) with
        | none => rw [hinner] at h; simp at h
        | some w =>
          obtain ⟨rd, sd⟩ := w
          rw [hinner] at h
          obtain ⟨⟨t, ht⟩, ⟨e, he⟩⟩ := ih h
          obtain ⟨⟨_, _⟩, ⟨e₀, he₀⟩⟩ := ih hinner
          obtain ⟨t₀, ht₀⟩ := @pushAbs_append (acc ++ rd) d
          refine ⟨⟨rd ++ t₀ ++ t, ?_⟩, ⟨[d] ++ e₀ ++ e, ?_⟩⟩
          · rw [ht, ht₀]; simp [List.append_assoc]
          · rw [he, he₀]; simp [List.append_assoc]

theorem resolveGo_acc_sub {f : Nat} {ds acc s r s' : List String}
    (h : resolveGo f ds acc s = some (r, s')) : acc ⊆ r := by
  obtain ⟨⟨t, ht⟩, _⟩ := resolveGo_shape h
  rw [ht]; exact List.subset_append_left _ _

theorem resolveGo_s_sub {f : Nat} {ds acc s r s' : List String}
    (h : resolveGo f ds acc s = some (r, s')) : s ⊆ s' := by
  obtain ⟨_, ⟨e, he⟩⟩ := resolveGo_shape h
  rw [he]; exact List.subset_append_left _ _

/-- Every processed dependency ends up in the result list. -/
theorem resolveGo_ds_mem :
    ∀ {f : Nat} {ds acc s r s' : List String},
      resolveGo f ds acc s = some (r, s') → ∀ d ∈ ds, d ∈ r := by
  intro f
  induction f with
  | zero =>
    intro ds acc s r s' h d hd
    cases ds with
    | nil => simp at hd
    | cons a as => simp [resolveGo] at h
  | succ f ih =>
    intro ds acc s r s' h d hd
    cases ds with
    | nil => simp at hd
    | cons a as =>
      simp only [resolveGo] at h
      rcases List.mem_cons.mp hd with rfl | hd
      · by_cases hv : s.contains d
        · rw [if_pos hv] at h
          exact resolveGo_acc_sub h mem_pushAbs_self
        · rw [if_neg hv] at h
          cases hinner : resolveGo f (getDirectDependencies d) [] (s ++ [d]) with
          | none => rw [hinner] at h; simp at h
          | some w =>
            obtain ⟨rd, sd⟩ := w
            rw [hinner] at h
            exact resolveGo_acc_sub h mem_pushAbs_self
      · by_cases hv : s.contains a
        · rw [if_pos hv] at h
          exact ih h d hd
        · rw [if_neg hv] at h
          cases hinner : resolveGo f (getDirectDependencies a) [] (s ++ [a]) with
          | none => rw [hinner] at h; simp at h
          | some w =>
            obtain ⟨rd, sd⟩ := w
            rw [hinner] at h
            exact ih h d hd

/-- Closure of the result under any predicate that is closed under
taking direct dependencies and holds on the processed list and the
accumulator. -/
theorem resolveGo_pred (R : String → Prop)
    (hR : ∀ x, R x → ∀ e ∈ getDirectDependencies x, R e) :
    ∀ {f : Nat} {ds acc s r s' : List String},
      resolveGo f ds acc s = some (r, s') →
      (∀ d ∈ ds, R d) → (∀ x ∈ acc, R x) → ∀ x ∈ r, R x := by
  intro f
  induction f with
  | zero =>
    intro ds acc s r s' h hds hacc x hx
    cases ds with
    | nil =>
      simp only [resolveGo, Option.some.injEq, Prod.mk.injEq] at h
      exact hacc x (h.1 ▸ hx)
    | cons a as => simp [resolveGo] at h
  | succ f ih =>
    intro ds acc s r s' h hds hacc x hx
    cases ds with
    | nil =>
      simp only [resolveGo, Option.some.injEq, Prod.mk.injEq] at h
      exact hacc x (h.1 ▸ hx)
    | cons a as =>
      simp only [resolveGo] at h
      have ha : R a := hds a (by simp)
      have has : ∀ d ∈ as, R d := fun d hd => hds d (by simp [hd])
      by_cases hv : s.contains a
      · rw [if_pos hv] at h
        refine ih h has ?_ x hx
        intro y hy
        rcases mem_pushAbs.mp hy with hy | rfl
        · exact hacc y hy
        · exact ha
      · rw [if_neg hv] at h
        cases hinner : resolveGo f (getDirectDependencies a) [] (s ++ [a]) with
        | none => rw [hinner] at h; simp at h
        | some w =>
          obtain ⟨rd, sd⟩ := w
          rw [hinner] at h
          have hrd : ∀ y ∈ rd, R y := ih hinner (hR a ha) (by simp)
          refine ih h has ?_ x hx
          intro y hy
          rcases mem_pushAbs.mp hy with hy | rfl
          · rcases List.mem_append.mp hy with hy | hy
            · exact hacc y hy
            · exact hrd y hy
          · exact ha

/-- Every name in the result list was pushed as a direct dependency:
it comes from the accumulator, from the processed list itself, or is a
direct dependency of some name newly marked visited by this run. -/
theorem resolveGo_pushers :
    ∀ {f : Nat} {ds acc s r s' : List String},
      resolveGo f ds acc s = some (r, s') →
      ∀ x ∈ r, x ∈ acc ∨ x ∈ ds ∨
        ∃ m, m ∈ s' ∧ m ∉ s ∧ x ∈ getDirectDependencies m := by
  intro f
  induction f with
  | zero =>
    intro ds acc s r s' h x hx
    cases ds with
    | nil =>
      simp only [resolveGo, Option.some.injEq, Prod.mk.injEq] at h
      exact Or.inl (h.1 ▸ hx)
    | cons a as => simp [resolveGo] at h
  | succ f ih =>
    intro ds acc s r s' h x hx
    cases ds with
    | nil =>
      simp only [resolveGo, Option.some.injEq, Prod.mk.injEq] at h
      exact Or.inl (h.1 ▸ hx)
    | cons a as =>
      simp only [resolveGo] at h
      by_cases hv : s.contains a
      · rw [if_pos hv] at h
        rcases ih h x hx with hx' | hx' | ⟨m, hm1, hm2, hm3⟩
        · rcases mem_pushAbs.mp hx' with hx' | rfl
          · exact Or.inl hx'
          · exact Or.inr (Or.inl (by simp))
        · exact Or.inr (Or.inl (by simp [hx']))
        · exact Or.inr (Or.inr ⟨m, hm1, hm2, hm3⟩)
      · rw [if_neg hv] at h
        have hans : a ∉ s := fun hm => hv (contains_iff.mpr hm)
        cases hinner : resolveGo f (getDirectDependencies a) [] (s ++ [a]) with
        | none => rw [hinner] at h; simp at h
        | some w =>
          obtain ⟨rd, sd⟩ := w
          rw [hinner] at h
          have hsd : s ++ [a] ⊆ sd := resolveGo_s_sub hinner
          have hsfin : sd ⊆ s' := resolveGo_s_sub h
          rcases ih h x hx with hx' | hx' | ⟨m, hm1, hm2, hm3⟩
          · rcases mem_pushAbs.mp hx' with hx' | rfl
            · rcases List.mem_append.mp hx' with hx' | hx'
              · exact Or.inl hx'
              · -- x came from the inner run
                rcases ih hinner x hx' with hx'' | hx'' | ⟨m, hm1, hm2, hm3⟩
                · simp at hx''
                · exact Or.inr (Or.inr ⟨a, hsfin (hsd (by simp)), hans, hx''⟩)
                · refine Or.inr (Or.inr ⟨m, hsfin hm1, fun hm => hm2 (by simp [hm]), hm3⟩)
            · exact Or.inr (Or.inl (by simp))
          · exact Or.inr (Or.inl (by simp [hx']))
          · refine Or.inr (Or.inr ⟨m, hm1, fun hm => hm2 (hsd (by simp [hm])), hm3⟩)

/-- Every name in the result list is marked visited by the end of the
run (provided the accumulator's names are already visited). -/
theorem resolveGo_r_sub_s :
    ∀ {f : Nat} {ds acc s r s' : List String},
      resolveGo f ds acc s = some (r, s') →
      (∀ x ∈ acc, x ∈ s) → ∀ x ∈ r, x ∈ s' := by
  intro f
  induction f with
  | zero =>
    intro ds acc s r s' h hacc x hx
    cases ds with
    | nil =>
      simp only [resolveGo, Option.some.injEq, Prod.mk.injEq] at h
      exact h.2 ▸ hacc x (h.1 ▸ hx)
    | cons a as => simp [resolveGo] at h
  | succ f ih =>
    intro ds acc s r s' h hacc x hx
    cases ds with
    | nil =>
      simp only [resolveGo, Option.some.injEq, Prod.mk.injEq] at h
      exact h.2 ▸ hacc x (h.1 ▸ hx)
    | cons a as =>
      simp only [resolveGo] at h
      by_cases hv : s.contains a
      · rw [if_pos hv] at h
        refine ih h ?_ x hx
        intro y hy
        rcases mem_pushAbs.mp hy with hy | rfl
        · exact hacc y hy
        · exact contains_iff.mp hv
      · rw [if_neg hv] at h
        cases hinner : resolveGo f (getDirectDependencies a) [] (s ++ [a]) with
        | none => rw [hinner] at h; simp at h
        | some w =>
          obtain ⟨rd, sd⟩ := w
          rw [hinner] at h
          have hsd : s ++ [a] ⊆ sd := resolveGo_s_sub hinner
          have hrd : ∀ y ∈ rd, y ∈ sd := ih hinner (by simp)
          refine ih h ?_ x hx
          intro y hy
          rcases mem_pushAbs.mp hy with hy | rfl
          · rcases List.mem_append.mp hy with hy | hy
            · exact hsd (by simp [hacc y hy])
            · exact hrd y hy
          · exact hsd (by simp)

/-- Every name marked visited during a run has all its direct
dependencies in the result list. -/
theorem resolveGo_visited_complete :
    ∀ {f : Nat} {ds acc s r s' : List String},
      resolveGo f ds acc s = some (r, s') →
      ∀ x ∈ s', x ∈ s ∨ CompleteIn getDirectDependencies r x := by
  intro f
  induction f with
  | zero =>
    intro ds acc s r s' h x hx
    cases ds with
    | nil =>
      simp only [resolveGo, Option.some.injEq, Prod.mk.injEq] at h
      exact Or.inl (h.2 ▸ hx)
    | cons a as => simp [resolveGo] at h
  | succ f ih =>
    intro ds acc s r s' h x hx
    cases ds with
    | nil =>
      simp only [resolveGo, Option.some.injEq, Prod.mk.injEq] at h
      exact Or.inl (h.2 ▸ hx)
    | cons a as =>
      simp only [resolveGo] at h
      by_cases hv : s.contains a
      · rw [if_pos hv] at h
        exact ih h x hx
      · rw [if_neg hv] at h
        cases hinner : resolveGo f (getDirectDependencies a) [] (s ++ [a]) with
        | none => rw [hinner] at h; simp at h
        | some w =>
          obtain ⟨rd, sd⟩ := w
          rw [hinner] at h
          have hsub : rd ⊆ r := by
            refine List.Subset.trans ?_ (resolveGo_acc_sub h)
            exact List.Subset.trans (List.subset_append_right acc rd) pushAbs_sub
          rcases ih h x hx with hx' | hx'
          · -- x was visited before the continuation ran
            rcases ih hinner x hx' with hx'' | hx''
            · rcases List.mem_append.mp hx'' with hx'' | hx''
              · exact Or.inl hx''
              · -- x = a : its dependencies are the inner processed list
                have hxa : x = a := by simpa using hx''
                subst hxa
                refine Or.inr ?_
                intro v hv'
                exact hsub (resolveGo_ds_mem hinner v hv')
            · exact Or.inr (completeIn_mono hsub hx'')
          · exact Or.inr hx'

/-- Every name newly marked visited during a run also appears in the
result list (it is pushed right after its expansion returns). -/
theorem resolveGo_s_sub_r :
    ∀ {f : Nat} {ds acc s r s' : List String},
      resolveGo f ds acc s = some (r, s') → ∀ x ∈ s', x ∈ s ∨ x ∈ r := by
  intro f
  induction f with
  | zero =>
    intro ds acc s r s' h x hx
    cases ds with
    | nil =>
      simp only [resolveGo, Option.some.injEq, Prod.mk.injEq] at h
      exact Or.inl (h.2 ▸ hx)
    | cons a as => simp [resolveGo] at h
  | succ f ih =>
    intro ds acc s r s' h x hx
    cases ds with
    | nil =>
      simp only [resolveGo, Option.some.injEq, Prod.mk.injEq] at h
      exact Or.inl (h.2 ▸ hx)
    | cons a as =>
      simp only [resolveGo] at h
      by_cases hv : s.contains a
      · rw [if_pos hv] at h
        exact ih h x hx
      · rw [if_neg hv] at h
        cases hinner : resolveGo f (getDirectDependencies a) [] (s ++ [a]) with
        | none => rw [hinner] at h; simp at h
        | some w =>
          obtain ⟨rd, sd⟩ := w
          rw [hinner] at h
          have hsub : pushAbs (acc ++ rd) a ⊆ r := resolveGo_acc_sub h
          rcases ih h x hx with hx' | hx'
          · rcases ih hinner x hx' with hx'' | hx''
            · rcases List.mem_append.mp hx'' with hx'' | hx''
              · exact Or.inl hx''
              · have : x = a := by simpa using hx''
                subst this
                exact Or.inr (hsub mem_pushAbs_self)
            · exact Or.inr (hsub (pushAbs_sub (List.mem_append.mpr (Or.inr hx''))))
          · exact Or.inr hx'
/-! ## Acyclicity of the registry's dependency graph

The dependency graph declared by the registry's marker lines is
acyclic.  This is witnessed by an explicit rank function: every direct
dependency has strictly smaller rank than its dependent.  The rank
facts below are verified by evaluation over the whole registry. -/

/-- Explicit rank witness for the registry's dependency graph; names
not listed have rank `0`. -/
def rankTable : List (String × Nat) :=
  [("noise2D", 1), ("noise3D", 1), ("perm4", 1), ("hslToRgb", 1),
   ("noiseWave", 1), ("sdfDisplace", 1), ("valueNoise1D", 1),
   ("valueNoise2D", 1), ("perlinNoise3D", 1), ("simplexNoise4D", 1),
   ("fbm2D", 2), ("fbm3D", 2), ("warpNoise3D", 2), ("valueNoise3D", 2),
   ("sdfDomainRepeat", 3)]

/-- Rank of a name in the dependency graph. -/
def rk (n : String) : Nat :=
  ((rankTable.find? (fun p => p.1 == n)).map (fun p => p.2)).getD 0

/-- Evaluation over the registry: every declared dependency edge
decreases the rank. -/
theorem rank_check :
    wgslFns.all
      (fun p => (parseDependencies p.2).all (fun d => decide (rk d < rk p.1))) = true := by
  decide

/-- A found source belongs to the registry entry of the name. -/
theorem foundSrc_mem {x : String} {code : String} (h : foundSrc x = some code) :
    (x, code) ∈ wgslFns ∧ code ≠ "" := by
  unfold foundSrc at h
  cases hfind : wgslFns.find? (fun p => p.1 == x) with
  | none => rw [hfind] at h; simp at h
  | some p =>
    rw [hfind] at h
    by_cases hp : p.2 = ""
    · simp [hp] at h
    · simp only [hp, if_false, Option.some.injEq] at h
      subst h
      have hmem : p ∈ wgslFns := List.mem_of_find?_eq_some hfind
      have hkey : p.1 = x := by
        have := List.find?_some hfind
        simpa [beq_iff_eq] using this
      constructor
      · have : (x, p.2) = p := by
          rw [← hkey]
        rw [this]; exact hmem
      · exact hp

/-- Direct dependency edges decrease the rank, for every name. -/
theorem rank_lt (x : String) : ∀ d ∈ getDirectDependencies x, rk d < rk x := by
  intro d hd
  unfold getDirectDependencies at hd
  cases hf : foundSrc x with
  | none => rw [hf] at hd; simp at hd
  | some code =>
    rw [hf] at hd
    obtain ⟨hmem, _⟩ := foundSrc_mem hf
    have hall := rank_check
    rw [List.all_eq_true] at hall
    have := hall (x, code) hmem
    rw [List.all_eq_true] at this
    simpa using this d hd

/-- A name is never its own direct dependency. -/
theorem not_self_dep (x : String) : x ∉ getDirectDependencies x := by
  intro h
  exact absurd (rank_lt x x h) (lt_irrefl _)

/-! ## The ordering invariant of the resolver loop

The central lemma: a successful run of `resolveGo` extends an ordered
history to an ordered history, provided every already-visited name is
either complete in the history (its dependencies were already pushed)
or dominates, in rank, every pending dependency (the names on the
current recursion path).  On the registry's acyclic graph the second
disjunct can never be consumed, which yields the dependency-first
ordering of the final stream. -/

theorem resolveGo_ordered :
    ∀ {f : Nat} {ds acc s r s' H : List String},
      resolveGo f ds acc s = some (r, s') →
      OrderedL getDirectDependencies (H ++ acc) →
      (∀ x ∈ s, CompleteIn getDirectDependencies (H ++ acc) x ∨ ∀ e ∈ ds, rk e < rk x) →
      OrderedL getDirectDependencies (H ++ r) ∧
        (∀ x ∈ s', CompleteIn getDirectDependencies (H ++ r) x ∨ x ∈ s) := by
  intro f
  induction f with
  | zero =>
    intro ds acc s r s' H h hord hvis
    cases ds with
    | nil =>
      simp only [resolveGo, Option.some.injEq, Prod.mk.injEq] at h
      obtain ⟨h1, h2⟩ := h
      subst h1; subst h2
      exact ⟨hord, fun x hx => Or.inr hx⟩
    | cons a as => simp [resolveGo] at h
  | succ f ih =>
    intro ds acc s r s' H h hord hvis
    cases ds with
    | nil =>
      simp only [resolveGo, Option.some.injEq, Prod.mk.injEq] at h
      obtain ⟨h1, h2⟩ := h
      subst h1; subst h2
      exact ⟨hord, fun x hx => Or.inr hx⟩
    | cons a as =>
      simp only [resolveGo] at h
      by_cases hv : s.contains a
      · -- already visited: the recursive call returned [] and a was pushed
        rw [if_pos hv] at h
        have has : a ∈ s := contains_iff.mp hv
        have hca : CompleteIn getDirectDependencies (H ++ acc) a := by
          rcases hvis a has with hca | hrk
          · exact hca
          · exact absurd (hrk a (by simp)) (lt_irrefl _)
        have hord₂ : OrderedL getDirectDependencies (H ++ pushAbs acc a) := by
          rw [pushAbs_eq]
          by_cases hmem : a ∈ acc
          · simpa [hmem]
          · simp only [hmem, if_false]
            rw [← List.append_assoc]
            exact orderedL_snoc hord hca
        have hvis₂ : ∀ x ∈ s,
            CompleteIn getDirectDependencies (H ++ pushAbs acc a) x ∨ ∀ e ∈ as, rk e < rk x := by
          intro x hx
          rcases hvis x hx with hcx | hrk
          · refine Or.inl (completeIn_mono ?_ hcx)
            intro y hy
            rcases List.mem_append.mp hy with hy | hy
            · exact List.mem_append.mpr (Or.inl hy)
            · exact List.mem_append.mpr (Or.inr (pushAbs_sub hy))
          · exact Or.inr (fun e he => hrk e (by simp [he]))
        exact ih h hord₂ hvis₂
      · -- not yet visited: a is expanded
        rw [if_neg hv] at h
        have hans : a ∉ s := fun hm => hv (contains_iff.mpr hm)
        cases hinner : resolveGo f (getDirectDependencies a) [] (s ++ [a]) with
        | none => rw [hinner] at h; simp at h
        | some w =>
          obtain ⟨rd, sd⟩ := w
          rw [hinner] at h
          have hgddrd : ∀ v ∈ getDirectDependencies a, v ∈ rd :=
            resolveGo_ds_mem hinner
          -- apply the induction hypothesis to the inner run with history H ++ acc
          have hordInner : OrderedL getDirectDependencies ((H ++ acc) ++ ([] : List String)) := by
            simpa using hord
          have hvisInner : ∀ x ∈ s ++ [a],
              CompleteIn getDirectDependencies ((H ++ acc) ++ ([] : List String)) x ∨
                ∀ e ∈ getDirectDependencies a, rk e < rk x := by
            intro x hx
            rcases List.mem_append.mp hx with hx | hx
            · rcases hvis x hx with hcx | hrk
              · exact Or.inl (by simpa using hcx)
              · exact Or.inr (fun e he =>
                  lt_trans (rank_lt a e he) (hrk a (by simp)))
            · have hxa : x = a := by simpa using hx
              subst hxa
              exact Or.inr (rank_lt x)
          obtain ⟨hordMid, hvisMid⟩ := ih hinner hordInner hvisInner
          -- the continuation runs with accumulator pushAbs (acc ++ rd) a
          have hsubmid : (H ++ acc) ++ rd ⊆ H ++ pushAbs (acc ++ rd) a := by
            intro y hy
            rw [List.append_assoc] at hy
            rcases List.mem_append.mp hy with hy | hy
            · exact List.mem_append.mpr (Or.inl hy)
            · exact List.mem_append.mpr (Or.inr (pushAbs_sub hy))
          have hcompa : CompleteIn getDirectDependencies ((H ++ acc) ++ rd) a := by
            intro v hv'
            exact List.mem_append.mpr (Or.inr (hgddrd v hv'))
          have hord₂ : OrderedL getDirectDependencies (H ++ pushAbs (acc ++ rd) a) := by
            rw [pushAbs_eq]
            by_cases hmem : a ∈ acc ++ rd
            · simp only [hmem, if_true]
              rw [← List.append_assoc]
              exact hordMid
            · simp only [hmem, if_false]
              rw [← List.append_assoc, ← List.append_assoc]
              exact orderedL_snoc (by rw [List.append_assoc]; exact (by rw [← List.append_assoc]; exact hordMid)) hcompa
          have hvis₂ : ∀ x ∈ sd,
              CompleteIn getDirectDependencies (H ++ pushAbs (acc ++ rd) a) x ∨ ∀ e ∈ as, rk e < rk x := by
            intro x hx
            rcases hvisMid x hx with hcx | hx'
            · exact Or.inl (completeIn_mono hsubmid hcx)
            · rcases List.mem_append.mp hx' with hx' | hx'
              · rcases hvis x hx' with hcx | hrk
                · refine Or.inl (completeIn_mono ?_ hcx)
                  intro y hy
                  refine hsubmid ?_
                  rw [List.append_assoc]
                  rcases List.mem_append.mp hy with hy | hy
                  · exact List.mem_append.mpr (Or.inl hy)
                  · exact List.mem_append.mpr (Or.inr (List.mem_append.mpr (Or.inl hy)))
                · exact Or.inr (fun e he => hrk e (by simp [he]))
              · have hxa : x = a := by simpa using hx'
                subst hxa
                exact Or.inl (completeIn_mono hsubmid hcompa)
          obtain ⟨hordFin, hvisFin⟩ := ih h hord₂ hvis₂
          refine ⟨hordFin, ?_⟩
          -- translate the visited conclusion back to the original s
          have hrdr : acc ++ rd ⊆ r :=
            List.Subset.trans pushAbs_sub (resolveGo_acc_sub h)
          intro x hx
          rcases hvisFin x hx with hcx | hx'
          · exact Or.inl hcx
          · rcases hvisMid x hx' with hcx | hx''
            · refine Or.inl (completeIn_mono ?_ hcx)
              intro y hy
              rw [List.append_assoc] at hy
              rcases List.mem_append.mp hy with hy | hy
              · exact List.mem_append.mpr (Or.inl hy)
              · exact List.mem_append.mpr (Or.inr (hrdr hy))
            · rcases List.mem_append.mp hx'' with hx'' | hx''
              · exact Or.inr hx''
              · have hxa : x = a := by simpa using hx''
                subst hxa
                refine Or.inl ?_
                intro v hv'
                exact List.mem_append.mpr (Or.inr (hrdr (List.mem_append.mpr (Or.inr (hgddrd v hv')))))
/-! ## Termination: the fuel is never exhausted

The loop's recursion is bounded: one unit of fuel is spent per
processed dependency entry, recursive expansion only happens on names
from `markerNames` that are not yet visited, and expanding a name adds
it to the visited list.  The weight function below therefore bounds the
fuel consumption, and the registry's concrete weight is far below
`resolverFuel`. -/

/-- Fuel cost of expanding one name: the entry itself plus its
dependency list. -/
def depWeight (x : String) : Nat := 1 + (getDirectDependencies x).length

/-- Total weight of the marker names not yet visited. -/
def remWeight (s : List String) : Nat :=
  ((markerNames.dedup.filter (fun x => !(s.contains x))).map depWeight).sum

/-- Weight of a loop state. -/
def goWeight (ds s : List String) : Nat := ds.length + remWeight s

theorem sum_filter_mono {l : List String} {p q : String → Bool}
    (w : String → Nat) (h : ∀ x, p x = true → q x = true) :
    ((l.filter p).map w).sum ≤ ((l.filter q).map w).sum := by
  induction l with
  | nil => simp
  | cons c cs ih =>
    by_cases hp : p c = true
    · simp only [List.filter_cons, hp, h c hp, if_true, List.map_cons, List.sum_cons]
      omega
    · have hp' : p c = false := by
        cases hpc : p c
        · rfl
        · exact absurd hpc hp
      by_cases hq : q c = true
      · simp only [List.filter_cons, hp', hq, Bool.false_eq_true, if_false, if_true,
          List.map_cons, List.sum_cons]
        omega
      · have hq' : q c = false := by
          cases hqc : q c
          · rfl
          · exact absurd hqc hq
        simpa only [List.filter_cons, hp', hq', Bool.false_eq_true, if_false] using ih

theorem remWeight_mono {s s' : List String} (h : s ⊆ s') :
    remWeight s' ≤ remWeight s := by
  apply sum_filter_mono
  intro x hx
  simp only [Bool.not_eq_true'] at hx ⊢
  cases hc : s.contains x
  · rfl
  · exfalso
    have : s'.contains x = true := contains_iff.mpr (h (contains_iff.mp hc))
    rw [this] at hx
    exact Bool.noConfusion hx

theorem remWeight_insert {s : List String} {d : String}
    (hd : d ∈ markerNames) (hds : d ∉ s) :
    depWeight d + remWeight (s ++ [d]) ≤ remWeight s := by
  have hdd : d ∈ markerNames.dedup := List.mem_dedup.mpr hd
  have hnd : markerNames.dedup.Nodup := List.nodup_dedup _
  unfold remWeight
  generalize markerNames.dedup = l at hdd hnd
  induction l with
  | nil => simp at hdd
  | cons c cs ih =>
    rcases List.mem_cons.mp hdd with rfl | hmem
    · -- head is d: kept on the right, dropped on the left
      have hleft : ((s ++ [d]).contains d) = true :=
        contains_iff.mpr (by simp)
      have hright : (s.contains d) = false := by
        cases hc : s.contains d
        · rfl
        · exact absurd (contains_iff.mp hc) hds
      simp only [List.filter_cons, hleft, hright, Bool.not_true, Bool.not_false,
        Bool.false_eq_true, if_false, if_true, List.map_cons, List.sum_cons]
      have : ((cs.filter (fun x => !((s ++ [d]).contains x))).map depWeight).sum ≤
          ((cs.filter (fun x => !(s.contains x))).map depWeight).sum := by
        apply sum_filter_mono
        intro x hx
        simp only [Bool.not_eq_true'] at hx ⊢
        cases hc : s.contains x
        · rfl
        · exfalso
          have : ((s ++ [d]).contains x) = true :=
            contains_iff.mpr (List.mem_append.mpr (Or.inl (contains_iff.mp hc)))
          rw [this] at hx
          exact Bool.noConfusion hx
      omega
    · -- head differs from d: both sides treat it alike
      have hcd : c ≠ d := by
        rintro rfl
        exact (List.nodup_cons.mp hnd).1 hmem
      have hsame : ((s ++ [d]).contains c) = (s.contains c) := by
        cases hc : s.contains c
        · cases hc' : (s ++ [d]).contains c
          · rfl
          · exfalso
            rcases List.mem_append.mp (contains_iff.mp hc') with hm | hm
            · rw [contains_iff.mpr hm] at hc; exact Bool.noConfusion hc
            · exact hcd (by simpa using hm)
        · exact contains_iff.mpr (List.mem_append.mpr (Or.inl (contains_iff.mp hc)))
      have ihc := ih hmem (List.nodup_cons.mp hnd).2
      by_cases hc : s.contains c = true
      · simp only [List.filter_cons, hsame, hc, Bool.not_true, Bool.false_eq_true,
          if_false]
        exact ihc
      · have hc' : s.contains c = false := by
          cases hcc : s.contains c
          · rfl
          · exact absurd hcc hc
        simp only [List.filter_cons, hsame, hc', Bool.not_false, if_true,
          List.map_cons, List.sum_cons]
        omega

/-- Sufficient fuel: the loop succeeds whenever the fuel covers the
state's weight. -/
theorem resolveGo_isSome :
    ∀ {f : Nat} {ds acc s : List String},
      (∀ e ∈ ds, e ∈ markerNames) → goWeight ds s ≤ f →
      (resolveGo f ds acc s).isSome := by
  intro f
  induction f with
  | zero =>
    intro ds acc s hds hw
    cases ds with
    | nil => simp [resolveGo]
    | cons a as =>
      exfalso
      unfold goWeight at hw
      simp at hw
  | succ f ih =>
    intro ds acc s hds hw
    cases ds with
    | nil => simp [resolveGo]
    | cons a as =>
      simp only [resolveGo]
      by_cases hv : s.contains a
      · rw [if_pos hv]
        refine ih (fun e he => hds e (by simp [he])) ?_
        unfold goWeight at hw ⊢
        simp only [List.length_cons] at hw
        omega
      · rw [if_neg hv]
        have hans : a ∉ s := fun hm => hv (contains_iff.mpr hm)
        have ham : a ∈ markerNames := hds a (by simp)
        have hins := remWeight_insert ham hans
        have hinner : (resolveGo f (getDirectDependencies a) [] (s ++ [a])).isSome := by
          refine ih (gdd_sub_markerNames a) ?_
          unfold goWeight at hw ⊢
          unfold depWeight at hins
          simp only [List.length_cons] at hw
          omega
        obtain ⟨w, hw'⟩ := Option.isSome_iff_exists.mp hinner
        obtain ⟨rd, sd⟩ := w
        rw [hw']
        refine ih (fun e he => hds e (by simp [he])) ?_
        have hsub : s ++ [a] ⊆ sd := resolveGo_s_sub hw'
        have hmono : remWeight sd ≤ remWeight (s ++ [a]) := remWeight_mono hsub
        unfold goWeight at hw ⊢
        unfold depWeight at hins
        simp only [List.length_cons] at hw
        omega

/-- Fuel monotonicity: a successful run is stable under more fuel. -/
theorem resolveGo_mono :
    ∀ {f : Nat} {ds acc s : List String} {z : List String × List String},
      resolveGo f ds acc s = some z →
      ∀ f', f ≤ f' → resolveGo f' ds acc s = some z := by
  intro f
  induction f with
  | zero =>
    intro ds acc s z h f' hf
    cases ds with
    | nil =>
      cases f' <;> simpa [resolveGo] using h
    | cons a as => simp [resolveGo] at h
  | succ f ih =>
    intro ds acc s z h f' hf
    cases ds with
    | nil =>
      cases f' <;> simpa [resolveGo] using h
    | cons a as =>
      obtain ⟨f'', rfl⟩ : ∃ f'', f' = f'' + 1 := by
        cases f' with
        | zero => omega
        | succ k => exact ⟨k, rfl⟩
      have hf'' : f ≤ f'' := by omega
      simp only [resolveGo] at h ⊢
      by_cases hv : s.contains a
      · rw [if_pos hv] at h ⊢
        exact ih h f'' hf''
      · rw [if_neg hv] at h ⊢
        cases hinner : resolveGo f (getDirectDependencies a) [] (s ++ [a]) with
        | none => rw [hinner] at h; simp at h
        | some w =>
          obtain ⟨rd, sd⟩ := w
          rw [hinner] at h
          rw [ih hinner f'' hf'']
          exact ih h f'' hf''
/-! ## The resolver entry points

Concrete bounds showing `resolverFuel` suffices, and the structural
facts about `resolveDependencies` and `resolveAllDependencies` used by
the claims. -/

theorem remWeight_nil_le : remWeight [] ≤ 900 := by decide

theorem gdd_len_check :
    wgslFns.all (fun p => decide ((parseDependencies p.2).length ≤ 2)) = true := by
  decide

theorem gdd_len_le (n : String) : (getDirectDependencies n).length ≤ 2 := by
  unfold getDirectDependencies
  cases hf : foundSrc n with
  | none => simp
  | some code =>
    obtain ⟨hmem, _⟩ := foundSrc_mem hf
    have hall := gdd_len_check
    rw [List.all_eq_true] at hall
    simpa using hall (n, code) hmem

theorem goWeight_le (n : String) (s : List String) :
    goWeight (getDirectDependencies n) s ≤ resolverFuel := by
  unfold goWeight resolverFuel
  have h₁ := gdd_len_le n
  have h₂ : remWeight s ≤ remWeight [] := remWeight_mono (by simp)
  have h₃ := remWeight_nil_le
  omega

theorem resolveDependenciesF_stable (fuel : Nat) (n : String) (s : List String)
    (h : resolverFuel ≤ fuel) :
    resolveDependenciesF fuel n s = resolveDependencies n s ∧
      (resolveDependenciesF fuel n s).isSome := by
  unfold resolveDependencies resolveDependenciesF
  by_cases hc : s.contains n
  · simp [hc, contains_iff.mp hc]
  · simp only [hc, Bool.false_eq_true, if_false]
    have hsome : (resolveGo resolverFuel (getDirectDependencies n) [] (s ++ [n])).isSome :=
      resolveGo_isSome (gdd_sub_markerNames n) (goWeight_le n (s ++ [n]))
    obtain ⟨z, hz⟩ := Option.isSome_iff_exists.mp hsome
    rw [hz, resolveGo_mono hz fuel h]
    simp

theorem resolveDependencies_isSome (n : String) (s : List String) :
    (resolveDependencies n s).isSome :=
  ((resolveDependenciesF_stable resolverFuel n s (le_refl _)).2)

/-- Dependency list computed by a fresh `resolveDependencies` call. -/
def rdeps (n : String) : List String :=
  ((resolveDependencies n []).map Prod.fst).getD []

/-- Visited list produced by a fresh `resolveDependencies` call. -/
def rvis (n : String) : List String :=
  ((resolveDependencies n []).map Prod.snd).getD []

theorem resolveDependencies_eq (n : String) :
    resolveDependencies n [] = some (rdeps n, rvis n) := by
  obtain ⟨⟨a, b⟩, hz⟩ :=
    Option.isSome_iff_exists.mp (resolveDependencies_isSome n [])
  unfold rdeps rvis
  rw [hz]
  simp

theorem rdeps_go (n : String) :
    resolveGo resolverFuel (getDirectDependencies n) [] [n] =
      some (rdeps n, rvis n) := by
  have h := resolveDependencies_eq n
  unfold resolveDependencies resolveDependenciesF at h
  simpa using h

theorem gdd_sub_rdeps (n : String) :
    ∀ d ∈ getDirectDependencies n, d ∈ rdeps n :=
  resolveGo_ds_mem (rdeps_go n)

theorem rdeps_rank (n : String) : ∀ x ∈ rdeps n, rk x < rk n := by
  refine resolveGo_pred (fun y => rk y < rk n) ?_ (rdeps_go n) ?_ ?_
  · intro y hy e he
    exact lt_trans (rank_lt y e he) hy
  · exact rank_lt n
  · intro x hx
    simp at hx

theorem rdeps_not_self (n : String) : n ∉ rdeps n := by
  intro h
  exact absurd (rdeps_rank n n h) (lt_irrefl _)

theorem rdeps_markerNames (n : String) : ∀ x ∈ rdeps n, x ∈ markerNames := by
  refine resolveGo_pred (fun y => y ∈ markerNames) ?_ (rdeps_go n) ?_ ?_
  · intro y _ e he
    exact gdd_sub_markerNames y e he
  · exact gdd_sub_markerNames n
  · intro x hx
    simp at hx

theorem rdeps_complete (n : String) :
    ∀ x ∈ rdeps n, CompleteIn getDirectDependencies (rdeps n) x := by
  intro x hx
  have hvis : x ∈ rvis n :=
    resolveGo_r_sub_s (rdeps_go n) (by intro y hy; simp at hy) x hx
  rcases resolveGo_visited_complete (rdeps_go n) x hvis with hx' | hc
  · have : x = n := by simpa using hx'
    subst this
    exact absurd (rdeps_rank x x hx) (lt_irrefl _)
  · exact hc

theorem rdeps_ordered (n : String) :
    OrderedL getDirectDependencies (rdeps n) := by
  have h := resolveGo_ordered (H := []) (rdeps_go n) (by simpa using
    (orderedL_nil (g := getDirectDependencies))) ?_
  · simpa using h.1
  · intro x hx
    have : x = n := by simpa using hx
    subst this
    exact Or.inr (rank_lt x)

/-! ### `resolveAllDependencies` -/

/-- The merged dependency set computed by `resolveAllDependencies`. -/
def mergedDeps (names : List String) : List String :=
  names.foldl (fun acc n => (rdeps n).foldl pushAbs acc) []

theorem resolveAllAux_eq (names : List String) :
    ∀ acc, resolveAllAux names acc =
      some (names.foldl (fun a n => (rdeps n).foldl pushAbs a) acc) := by
  induction names with
  | nil => intro acc; simp [resolveAllAux]
  | cons n ns ih =>
    intro acc
    simp only [resolveAllAux, resolveDependencies_eq n, List.foldl_cons]
    exact ih _

theorem resolveAllDependencies_eq (names : List String) :
    resolveAllDependencies names = some (mergedDeps names) :=
  resolveAllAux_eq names []

theorem mergedDeps_flatten (names : List String) :
    mergedDeps names = ((names.map rdeps).flatten).foldl pushAbs [] := by
  unfold mergedDeps
  generalize ([] : List String) = acc
  induction names generalizing acc with
  | nil => simp
  | cons n ns ih =>
    simp only [List.foldl_cons, List.map_cons, List.flatten_cons, List.foldl_append]
    exact ih _

theorem mem_mergedDeps {names : List String} {x : String} :
    x ∈ mergedDeps names ↔ ∃ n ∈ names, x ∈ rdeps n := by
  rw [mergedDeps_flatten, mem_foldl_pushAbs]
  simp only [List.mem_flatten, List.mem_map]
  constructor
  · rintro (hx | ⟨l, ⟨n, hn, rfl⟩, hxl⟩)
    · simp at hx
    · exact ⟨n, hn, hxl⟩
  · rintro ⟨n, hn, hx⟩
    exact Or.inr ⟨rdeps n, ⟨n, hn, rfl⟩, hx⟩

theorem mergedDeps_nodup (names : List String) : (mergedDeps names).Nodup := by
  rw [mergedDeps_flatten]
  exact nodup_foldl_pushAbs List.nodup_nil

theorem mergedDeps_ordered (names : List String) :
    OrderedL getDirectDependencies (mergedDeps names) := by
  rw [mergedDeps_flatten]
  apply orderedL_dedup
  induction names with
  | nil => simpa using (orderedL_nil (g := getDirectDependencies))
  | cons n ns ih =>
    simp only [List.map_cons, List.flatten_cons]
    exact orderedL_append (rdeps_ordered n) ih

theorem mergedDeps_complete (names : List String) :
    ∀ x ∈ mergedDeps names, CompleteIn getDirectDependencies (mergedDeps names) x := by
  intro x hx
  obtain ⟨n, hn, hxn⟩ := mem_mergedDeps.mp hx
  intro v hv
  exact mem_mergedDeps.mpr ⟨n, hn, rdeps_complete n x hxn v hv⟩

/-! ### The final ordered name list -/

/-- Appending a block whose elements have all their dependencies in the
ordered part preserves the ordering invariant. -/
theorem orderedL_append_complete {g : String → List String} {A B : List String}
    (hA : OrderedL g A) (hB : ∀ u ∈ B, ∀ v ∈ g u, v ∈ A) :
    OrderedL g (A ++ B) := by
  intro p u q h
  rcases List.append_eq_append_iff.mp h with ⟨m, hm1, hm2⟩ | ⟨m, hm1, hm2⟩
  · subst hm1
    intro v hv
    have hu : u ∈ B := by
      rw [hm2]
      simp
    exact List.mem_append.mpr (Or.inl (hB u hu v hv))
  · cases m with
    | nil =>
      simp only [List.nil_append] at hm2
      simp only [List.append_nil] at hm1
      subst hm1
      intro v hv
      have hu : u ∈ B := by rw [← hm2]; simp
      exact hB u hu v hv
    | cons c m' =>
      have hu : u = c := by
        simp only [List.cons_append] at hm2
        injection hm2
      subst hu
      exact hA p u m' hm1

theorem allNames_ordered (names : List String) :
    OrderedL getDirectDependencies (allFunctionNames (mergedDeps names) names) := by
  unfold allFunctionNames
  apply orderedL_append_complete (mergedDeps_ordered names)
  intro u hu v hv
  have hun : u ∈ names := (List.mem_filter.mp hu).1
  exact mem_mergedDeps.mpr ⟨u, hun, gdd_sub_rdeps u v hv⟩

theorem mem_allNames_requested {names : List String} {n : String} (h : n ∈ names) :
    n ∈ allFunctionNames (mergedDeps names) names := by
  unfold allFunctionNames
  by_cases hm : n ∈ mergedDeps names
  · exact List.mem_append.mpr (Or.inl hm)
  · refine List.mem_append.mpr (Or.inr (List.mem_filter.mpr ⟨h, ?_⟩))
    cases hc : (mergedDeps names).contains n
    · rfl
    · exact absurd (contains_iff.mp hc) hm

theorem mergedDeps_sub_allNames (names : List String) :
    mergedDeps names ⊆ allFunctionNames (mergedDeps names) names :=
  List.subset_append_left _ _

theorem allNames_complete (names : List String) :
    ∀ x ∈ allFunctionNames (mergedDeps names) names,
      CompleteIn getDirectDependencies (allFunctionNames (mergedDeps names) names) x := by
  intro x hx
  rcases List.mem_append.mp hx with hx | hx
  · exact completeIn_mono (mergedDeps_sub_allNames names) (mergedDeps_complete names x hx)
  · intro v hv
    have hxn : x ∈ names := (List.mem_filter.mp hx).1
    exact mergedDeps_sub_allNames names
      (mem_mergedDeps.mpr ⟨x, hxn, gdd_sub_rdeps x v hv⟩)
/-! ## The assembler: emitted blocks, reachability, and positions -/

theorem srcD_eq {n s : String} (h : foundSrc n = some s) : srcD n = s := by
  unfold srcD
  rw [h]
  rfl

theorem parse_srcD {n : String} (h : (foundSrc n).isSome) :
    parseDependencies (srcD n) = getDirectDependencies n := by
  obtain ⟨s, hs⟩ := Option.isSome_iff_exists.mp h
  unfold getDirectDependencies
  rw [srcD_eq hs, hs]

/-- Evaluation over the registry: every marker name has a (nonempty)
registry entry — the registry is dependency-closed. -/
theorem markerNames_found_check :
    markerNames.all (fun x => (foundSrc x).isSome) = true := by
  decide

theorem markerNames_found : ∀ x ∈ markerNames, (foundSrc x).isSome := by
  intro x hx
  have h := markerNames_found_check
  rw [List.all_eq_true] at h
  exact h x hx

theorem allNames_found {names : List String}
    (h : ∀ n ∈ names, (foundSrc n).isSome) :
    ∀ x ∈ allFunctionNames (mergedDeps names) names, (foundSrc x).isSome := by
  intro x hx
  rcases List.mem_append.mp hx with hx | hx
  · obtain ⟨n, _, hxn⟩ := mem_mergedDeps.mp hx
    exact markerNames_found x (rdeps_markerNames n x hxn)
  · exact h x (List.mem_filter.mp hx).1

/-! ### The emission loop -/

theorem emitBlocks_ok {L : List String} :
    ∀ {acc : List String}, (∀ x ∈ L, (foundSrc x).isSome) →
      emitBlocks L acc = .ok ((L.map srcD).foldl pushAbs acc) := by
  induction L with
  | nil => intro acc _; simp [emitBlocks]
  | cons n ns ih =>
    intro acc h
    obtain ⟨fn, hf⟩ := Option.isSome_iff_exists.mp (h n (by simp))
    have hsrc : srcD n = fn := srcD_eq hf
    simp only [emitBlocks, hf, List.map_cons, List.foldl_cons, hsrc]
    have htail : ∀ x ∈ ns, (foundSrc x).isSome := fun x hx => h x (by simp [hx])
    by_cases hc : acc.contains fn
    · rw [if_pos hc]
      have : pushAbs acc fn = acc := by
        unfold pushAbs
        rw [if_pos hc]
      rw [this]
      exact ih htail
    · rw [if_neg hc]
      have : pushAbs acc fn = acc ++ [fn] := by
        unfold pushAbs
        rw [if_neg hc]
      rw [this]
      exact ih htail

theorem emitBlocks_err {L : List String} {bad : String} :
    ∀ {acc : List String},
      L.find? (fun x => (foundSrc x).isNone) = some bad →
      emitBlocks L acc = .error ("WGSL function \"" ++ bad ++ "\" not found") := by
  induction L with
  | nil => intro acc h; simp at h
  | cons n ns ih =>
    intro acc h
    cases hf : foundSrc n with
    | none =>
      have : n = bad := by
        rw [List.find?_cons_of_pos] at h
        · exact Option.some.inj h
        · simp [hf]
      subst this
      simp [emitBlocks, hf]
    | some fn =>
      rw [List.find?_cons_of_neg _ (by simp [hf])] at h
      simp only [emitBlocks, hf]
      by_cases hc : acc.contains fn
      · rw [if_pos hc]; exact ih h
      · rw [if_neg hc]; exact ih h

/-- Emitted block list of a successful `getFns` call. -/
def blocksOf (names : List String) : List String :=
  ((allFunctionNames (mergedDeps names) names).map srcD).foldl pushAbs []

theorem getFnsList_ok {names : List String}
    (h : ∀ n ∈ names, (foundSrc n).isSome) :
    getFnsList names = .ok (blocksOf names) := by
  unfold getFnsList
  rw [resolveAllDependencies_eq]
  exact emitBlocks_ok (allNames_found h)

theorem mem_blocksOf {names : List String} {b : String} :
    b ∈ blocksOf names ↔
      ∃ x ∈ allFunctionNames (mergedDeps names) names, srcD x = b := by
  unfold blocksOf
  rw [mem_foldl_pushAbs]
  simp only [List.mem_map]
  constructor
  · rintro (hb | ⟨x, hx, rfl⟩)
    · simp at hb
    · exact ⟨x, hx, rfl⟩
  · rintro ⟨x, hx, rfl⟩
    exact Or.inr ⟨x, hx, rfl⟩

theorem blocksOf_nodup (names : List String) : (blocksOf names).Nodup :=
  nodup_foldl_pushAbs List.nodup_nil

/-! ### Content-level ordering -/

/-- Content-level dependency function: the source texts of the names
declared by a source text's marker line. -/
def gddC (b : String) : List String :=
  (parseDependencies b).map srcD

theorem orderedL_take {g : String → List String} {L : List String}
    (hord : OrderedL g L) (i : Nat) (hi : i < L.length) :
    ∀ v ∈ g (L.get ⟨i, hi⟩), v ∈ L.take i := by
  have hsplit : L = L.take i ++ L.get ⟨i, hi⟩ :: L.drop (i + 1) := by
    conv_lhs => rw [← List.take_append_drop i L]
    congr 1
    rw [List.drop_eq_getElem_cons hi]
    rfl
  exact hord _ _ _ hsplit

/-- Mapping an ordered, everywhere-found name list to its source texts
yields a content-ordered list. -/
theorem orderedC_map {L : List String}
    (hord : OrderedL getDirectDependencies L)
    (hfound : ∀ x ∈ L, (foundSrc x).isSome) :
    OrderedL gddC (L.map srcD) := by
  intro p u q hsplit
  have hlen : p.length < L.length := by
    have := congrArg List.length hsplit
    simp at this
    omega
  have hLsplit : L = L.take p.length ++ L.get ⟨p.length, hlen⟩ :: L.drop (p.length + 1) := by
    conv_lhs => rw [← List.take_append_drop p.length L]
    congr 1
    rw [List.drop_eq_getElem_cons hlen]
    rfl
  have hsplit₂ : p ++ u :: q =
      (L.take p.length).map srcD ++
        srcD (L.get ⟨p.length, hlen⟩) :: (L.drop (p.length + 1)).map srcD := by
    calc p ++ u :: q = L.map srcD := hsplit.symm
      _ = (L.take p.length ++ L.get ⟨p.length, hlen⟩ :: L.drop (p.length + 1)).map srcD := by
            rw [← hLsplit]
      _ = (L.take p.length).map srcD ++
            srcD (L.get ⟨p.length, hlen⟩) :: (L.drop (p.length + 1)).map srcD := by
            simp only [List.map_append, List.map_cons]
  have hinj := List.append_inj hsplit₂ (by simp [List.length_take]; omega)
  have hp : p = (L.take p.length).map srcD := hinj.1
  have hu : u = srcD (L.get ⟨p.length, hlen⟩) := by
    have := hinj.2
    injection this
  intro v hv
  unfold gddC at hv
  rw [hu, parse_srcD (hfound _ (List.get_mem L p.length hlen))] at hv
  obtain ⟨w, hw, rfl⟩ := List.mem_map.mp hv
  have hwtake : w ∈ L.take p.length :=
    orderedL_take hord p.length hlen w hw
  rw [hp]
  exact List.mem_map.mpr ⟨w, hwtake, rfl⟩

theorem blocksOf_ordered {names : List String}
    (h : ∀ n ∈ names, (foundSrc n).isSome) :
    OrderedL gddC (blocksOf names) :=
  orderedL_dedup (orderedC_map (allNames_ordered names) (allNames_found h))

/-! ### Positions -/

theorem mem_take_indexOf {L : List String} {v : String} :
    ∀ {i : Nat}, v ∈ L.take i → L.indexOf v < i := by
  induction L with
  | nil => intro i h; simp at h
  | cons c cs ih =>
    intro i h
    cases i with
    | zero => simp at h
    | succ i =>
      rw [List.take_succ_cons] at h
      rcases List.mem_cons.mp h with rfl | h
      · simp [List.indexOf_cons_self]
      · by_cases hvc : v = c
        · subst hvc
          simp [List.indexOf_cons_self]
        · rw [List.indexOf_cons_ne _ (fun hh => hvc hh.symm)]
          exact Nat.succ_lt_succ (ih h)

/-- Ordering of first occurrences: in an ordered list, every
`g`-dependency of a member occurs strictly before it. -/
theorem ordered_indexOf_lt {g : String → List String} {L : List String}
    (hord : OrderedL g L) {u v : String} (hu : u ∈ L) (hv : v ∈ g u) :
    v ∈ L ∧ L.indexOf v < L.indexOf u := by
  have hlt : L.indexOf u < L.length := List.indexOf_lt_length.mpr hu
  have hget : L.get ⟨L.indexOf u, hlt⟩ = u := List.indexOf_get hlt
  have hvtake : v ∈ L.take (L.indexOf u) := by
    apply orderedL_take hord (L.indexOf u) hlt
    rw [hget]
    exact hv
  exact ⟨List.take_subset _ _ hvtake, mem_take_indexOf hvtake⟩

/-- Character position at which the `i`-th emitted block starts in the
joined output: the lengths of the earlier blocks plus two separator
characters per earlier block. -/
def defStart (blocks : List String) (b : String) : Nat :=
  ((blocks.take (blocks.indexOf b)).map String.length).sum + 2 * blocks.indexOf b

theorem sum_len_take_mono (w : String → Nat) :
    ∀ (L : List String) {i j : Nat}, i ≤ j →
      ((L.take i).map w).sum ≤ ((L.take j).map w).sum := by
  intro L
  induction L with
  | nil => intro i j _; simp
  | cons c cs ih =>
    intro i j hij
    cases i with
    | zero => simp
    | succ i =>
      cases j with
      | zero => omega
      | succ j =>
        simp only [List.take_succ_cons, List.map_cons, List.sum_cons]
        have := ih (Nat.le_of_succ_le_succ hij)
        omega

theorem defStart_lt {blocks : List String} {b c : String}
    (h : blocks.indexOf b < blocks.indexOf c) :
    defStart blocks b < defStart blocks c := by
  unfold defStart
  have hsum := sum_len_take_mono String.length blocks (Nat.le_of_lt h)
  omega

/-- The output string contains each emitted block at its computed
start position. -/
theorem joinBlocks_decompose {blocks : List String} {b : String} (h : b ∈ blocks) :
    ∃ pre post, joinBlocks blocks = pre ++ (b ++ post) ∧
      pre.length = defStart blocks b := by
  induction blocks with
  | nil => simp at h
  | cons c cs ih =>
    by_cases hcb : c = b
    · subst hcb
      refine ⟨"", ?_⟩
      cases cs with
      | nil =>
        exact ⟨"", by simp [joinBlocks, defStart, List.indexOf_cons_self]⟩
      | cons e es =>
        refine ⟨"\n\n" ++ joinBlocks (e :: es), ?_⟩
        constructor
        · simp [joinBlocks, String.append_assoc]
        · simp [defStart, List.indexOf_cons_self]
    · have hb : b ∈ cs := by
        rcases List.mem_cons.mp h with rfl | hb
        · exact absurd rfl hcb
        · exact hb
      obtain ⟨pre, post, hjoin, hlen⟩ := ih hb
      have hcs : cs ≠ [] := by
        intro hnil
        rw [hnil] at hb
        simp at hb
      obtain ⟨e, es, rfl⟩ := List.exists_cons_of_ne_nil hcs
      refine ⟨c ++ "\n\n" ++ pre, post, ?_, ?_⟩
      · rw [joinBlocks, hjoin]
        simp [String.append_assoc]
      · have hidx : (c :: e :: es).indexOf b = (e :: es).indexOf b + 1 :=
          List.indexOf_cons_ne _ hcb
        simp only [String.length_append, hlen]
        unfold defStart
        rw [hidx, List.take_succ_cons]
        simp only [List.map_cons, List.sum_cons]
        have : ("\n\n" : String).length = 2 := rfl
        omega

/-- Containment of a text inside another, as an explicit
decomposition. -/
def containsText (big small : String) : Prop :=
  ∃ pre post, big = pre ++ (small ++ post)

theorem joinBlocks_contains {blocks : List String} {b : String} (h : b ∈ blocks) :
    containsText (joinBlocks blocks) b := by
  obtain ⟨pre, post, hjoin, _⟩ := joinBlocks_decompose h
  exact ⟨pre, post, hjoin⟩
/-! ## Transitive dependencies

`Reaches w x` is the declarative transitive closure of the declared
direct-dependency edges: `x` is a (transitive) dependency of `w`.  A
fresh `resolveDependencies` call computes exactly this set. -/

inductive Reaches : String → String → Prop
  | base {w x : String} : x ∈ getDirectDependencies w → Reaches w x
  | step {w m x : String} :
      m ∈ getDirectDependencies w → Reaches m x → Reaches w x

theorem reaches_edge_trans {w y e : String}
    (h : Reaches w y) (he : e ∈ getDirectDependencies y) : Reaches w e := by
  induction h with
  | base hb => exact Reaches.step hb (Reaches.base he)
  | step hm _ ih => exact Reaches.step hm (ih he)

theorem reaches_of_rdeps {w x : String} (h : x ∈ rdeps w) : Reaches w x := by
  refine resolveGo_pred (Reaches w) ?_ (rdeps_go w) ?_ ?_ x h
  · intro y hy e he
    exact reaches_edge_trans hy he
  · intro d hd
    exact Reaches.base hd
  · intro y hy
    simp at hy

theorem reaches_closure {w x : String} (h : Reaches w x) :
    ∀ (S : String → Prop), (∀ e ∈ getDirectDependencies w, S e) →
      (∀ y, S y → ∀ e ∈ getDirectDependencies y, S e) → S x := by
  induction h with
  | base hb =>
    intro S hbase _
    exact hbase _ hb
  | step hm _ ih =>
    intro S hbase hstep
    exact ih S (fun e he => hstep _ (hbase _ hm) e he) hstep

theorem rdeps_of_reaches {w x : String} (h : Reaches w x) : x ∈ rdeps w :=
  reaches_closure h (fun y => y ∈ rdeps w) (gdd_sub_rdeps w) (rdeps_complete w)

/-! ## Glue facts for the claims -/

theorem contains_eq_false_of_not_mem {l : List String} {a : String} (h : a ∉ l) :
    l.contains a = false := by
  cases hc : l.contains a
  · rfl
  · exact absurd (contains_iff.mp hc) h

theorem found_of_gdd_ne {n d : String} (h : d ∈ getDirectDependencies n) :
    (foundSrc n).isSome := by
  unfold getDirectDependencies at h
  cases hf : foundSrc n
  · rw [hf] at h; simp at h
  · rfl

theorem emitBlocks_found {L : List String} :
    ∀ {acc res : List String}, emitBlocks L acc = .ok res →
      ∀ x ∈ L, (foundSrc x).isSome := by
  induction L with
  | nil => intro acc res _ x hx; simp at hx
  | cons n ns ih =>
    intro acc res h x hx
    cases hf : foundSrc n with
    | none => simp [emitBlocks, hf] at h
    | some fn =>
      simp only [emitBlocks, hf] at h
      rcases List.mem_cons.mp hx with rfl | hx
      · simp [hf]
      · by_cases hc : acc.contains fn
        · rw [if_pos hc] at h; exact ih h x hx
        · rw [if_neg hc] at h; exact ih h x hx

/-- A successful `getFnsList` call implies every requested name has a
registry entry, and identifies the block list. -/
theorem getFnsList_ok_inv {names blocks : List String}
    (h : getFnsList names = .ok blocks) :
    (∀ n ∈ names, (foundSrc n).isSome) ∧ blocks = blocksOf names := by
  unfold getFnsList at h
  rw [resolveAllDependencies_eq] at h
  have h' : emitBlocks (allFunctionNames (mergedDeps names) names) [] = .ok blocks := h
  have hfound : ∀ x ∈ allFunctionNames (mergedDeps names) names,
      (foundSrc x).isSome := emitBlocks_found h'
  have hreq : ∀ n ∈ names, (foundSrc n).isSome :=
    fun n hn => hfound n (mem_allNames_requested hn)
  rw [emitBlocks_ok hfound] at h'
  exact ⟨hreq, (Except.ok.inj h').symm⟩

/-- Edge-level position comparison in the emitted block list. -/
theorem blocks_edge_lt {names : List String} {p q : String}
    (hfound : ∀ n ∈ names, (foundSrc n).isSome)
    (hp : p ∈ allFunctionNames (mergedDeps names) names)
    (hq : q ∈ getDirectDependencies p) :
    srcD q ∈ blocksOf names ∧
      (blocksOf names).indexOf (srcD q) < (blocksOf names).indexOf (srcD p) := by
  have hpb : srcD p ∈ blocksOf names := mem_blocksOf.mpr ⟨p, hp, rfl⟩
  have hqC : srcD q ∈ gddC (srcD p) := by
    unfold gddC
    rw [parse_srcD (allNames_found hfound p hp)]
    exact List.mem_map.mpr ⟨q, hq, rfl⟩
  exact ordered_indexOf_lt (blocksOf_ordered hfound) hpb hqC

/-- Transitive position comparison in the emitted block list. -/
theorem blocks_reach_lt {names : List String} {X d : String}
    (hfound : ∀ n ∈ names, (foundSrc n).isSome)
    (hr : Reaches X d) :
    X ∈ allFunctionNames (mergedDeps names) names →
      (blocksOf names).indexOf (srcD d) < (blocksOf names).indexOf (srcD X) := by
  induction hr with
  | base hb =>
    intro hX
    exact (blocks_edge_lt hfound hX hb).2
  | step hm _ ih =>
    intro hX
    exact lt_trans (ih (allNames_complete names _ hX _ hm))
      (blocks_edge_lt hfound hX hm).2
/-! ## The claims -/

theorem assoc_find? {l : List (String × String)}
    (hnd : (l.map Prod.fst).Nodup) {n s : String} (hmem : (n, s) ∈ l) :
    l.find? (fun p => p.1 == n) = some (n, s) := by
  induction l with
  | nil => simp at hmem
  | cons kv t ih =>
    obtain ⟨k, v⟩ := kv
    rcases List.mem_cons.mp hmem with heq | hmem'
    · obtain ⟨rfl, rfl⟩ := Prod.mk.injEq .. ▸ heq.symm
      exact List.find?_cons_of_pos _ (by simp)
    · have hk : k ≠ n := by
        rintro rfl
        have hkt : k ∈ t.map Prod.fst := List.mem_map.mpr ⟨(k, s), hmem', rfl⟩
        simp only [List.map_cons, List.nodup_cons] at hnd
        exact hnd.1 hkt
      rw [List.find?_cons_of_neg _ (by simp [hk])]
      exact ih (by simp only [List.map_cons, List.nodup_cons] at hnd; exact hnd.2) hmem'

theorem wgslFns_keys_nodup : (wgslFns.map Prod.fst).Nodup := by decide

theorem wgslFns_no_empty : wgslFns.all (fun p => !(p.2 == "")) = true := by decide

theorem foundSrc_of_mem {n src : String} (hmem : (n, src) ∈ wgslFns) :
    foundSrc n = some src := by
  have hne : src ≠ "" := by
    have h := wgslFns_no_empty
    rw [List.all_eq_true] at h
    simpa using h (n, src) hmem
  unfold foundSrc
  rw [assoc_find? wgslFns_keys_nodup hmem]
  simp [hne]

/-- C1.  For every function name `n` in the registry that declares a
dependency `d`, the string returned by `getFns [n]` contains the full
source text of `d`; and transitively, if `a` depends on `b` and `b`
depends on `c`, `getFns [a]` contains the source text of `a`, `b` and
`c`.  Containment is witnessed by an explicit decomposition of the
output string (`containsText`). -/
theorem C1_dependency_inclusion :
    (∀ n d, d ∈ getDirectDependencies n →
      ∃ out, getFns [n] = .ok out ∧ (foundSrc d).isSome ∧
        containsText out (srcD d)) ∧
    (∀ a b c, b ∈ getDirectDependencies a → c ∈ getDirectDependencies b →
      ∃ out, getFns [a] = .ok out ∧ containsText out (srcD a) ∧
        containsText out (srcD b) ∧ containsText out (srcD c)) := by
  constructor
  · intro n d hd
    have hreq : ∀ m ∈ [n], (foundSrc m).isSome := by
      intro m hm
      have : m = n := by simpa using hm
      subst this
      exact found_of_gdd_ne hd
    refine ⟨joinBlocks (blocksOf [n]), ?_, ?_, ?_⟩
    · unfold getFns
      rw [getFnsList_ok hreq]
      rfl
    · exact markerNames_found d (gdd_sub_markerNames n d hd)
    · apply joinBlocks_contains
      apply mem_blocksOf.mpr
      refine ⟨d, ?_, rfl⟩
      exact mergedDeps_sub_allNames [n]
        (mem_mergedDeps.mpr ⟨n, by simp, gdd_sub_rdeps n d hd⟩)
  · intro a b c hb hc
    have hreq : ∀ m ∈ [a], (foundSrc m).isSome := by
      intro m hm
      have : m = a := by simpa using hm
      subst this
      exact found_of_gdd_ne hb
    have hbr : b ∈ rdeps a := gdd_sub_rdeps a b hb
    have hcr : c ∈ rdeps a := rdeps_complete a b hbr c hc
    refine ⟨joinBlocks (blocksOf [a]), ?_, ?_, ?_, ?_⟩
    · unfold getFns
      rw [getFnsList_ok hreq]
      rfl
    · exact joinBlocks_contains (mem_blocksOf.mpr
        ⟨a, mem_allNames_requested (by simp), rfl⟩)
    · exact joinBlocks_contains (mem_blocksOf.mpr
        ⟨b, mergedDeps_sub_allNames [a] (mem_mergedDeps.mpr ⟨a, by simp, hbr⟩), rfl⟩)
    · exact joinBlocks_contains (mem_blocksOf.mpr
        ⟨c, mergedDeps_sub_allNames [a] (mem_mergedDeps.mpr ⟨a, by simp, hcr⟩), rfl⟩)

theorem C1_witness :
    (∃ out, getFns ["noise2D"] = .ok out ∧ (foundSrc "hash22").isSome ∧
      containsText out (srcD "hash22")) ∧
    (∃ out, getFns ["fbm2D"] = .ok out ∧ containsText out (srcD "fbm2D") ∧
      containsText out (srcD "noise2D") ∧ containsText out (srcD "hash22")) :=
  ⟨C1_dependency_inclusion.1 "noise2D" "hash22" (by decide),
   C1_dependency_inclusion.2 "fbm2D" "noise2D" "hash22" (by decide) (by decide)⟩

/-- Registry-wide evaluation: the regular-expression parser of the code
and the line-based parser described by the specification agree on every
registry source text. -/
theorem parse_eq_spec_check :
    wgslFns.all (fun p => parseDependencies p.2 == specParseDependencies p.2) = true := by
  decide

/-- C2.  For every function name `n` in the registry, the list of
direct dependencies the resolver uses for `n` equals the
whitespace-separated name list of the first dependency-marker line of
`n`'s source text as described by the specification
(`specParseDependencies`), which is empty when no marker line
exists. -/
theorem C2_marker_refinement :
    ∀ n src, (n, src) ∈ wgslFns →
      getDirectDependencies n = specParseDependencies src := by
  intro n src hmem
  have hfound : foundSrc n = some src := foundSrc_of_mem hmem
  have h₁ : getDirectDependencies n = parseDependencies src := by
    unfold getDirectDependencies
    rw [hfound]
  rw [h₁]
  have hall := parse_eq_spec_check
  rw [List.all_eq_true] at hall
  have := hall (n, src) hmem
  simpa using this

theorem C2_witness :
    getDirectDependencies "valueNoise2D" = specParseDependencies valueNoise2D ∧
      specParseDependencies valueNoise2D = ["rand22Sin", "smoothStepVec2"] :=
  ⟨C2_marker_refinement "valueNoise2D" valueNoise2D (by decide), by decide⟩

/-- C3.  If any requested name or transitively-declared dependency name
is absent from the registry (in the JavaScript sense: missing or
empty), `getFns` fails with a message containing the first unknown name
in traversal order — the order of the final name list — and, being an
exception (`Except.error`), produces no partial output; in particular
`getFns ["doesNotExist"]` fails and its message contains
`"doesNotExist"`. -/
theorem C3_unknown_name :
    (∀ names deps bad, resolveAllDependencies names = some deps →
      (allFunctionNames deps names).find? (fun x => (foundSrc x).isNone) = some bad →
      getFns names = .error ("WGSL function \"" ++ bad ++ "\" not found") ∧
        containsText ("WGSL function \"" ++ bad ++ "\" not found") bad) ∧
    (getFns ["doesNotExist"] = .error "WGSL function \"doesNotExist\" not found" ∧
      containsText "WGSL function \"doesNotExist\" not found" "doesNotExist") := by
  constructor
  · intro names deps bad hres hfind
    constructor
    · have hlist : getFnsList names =
          .error ("WGSL function \"" ++ bad ++ "\" not found") := by
        unfold getFnsList
        rw [hres]
        exact emitBlocks_err hfind
      unfold getFns
      rw [hlist]
      rfl
    · exact ⟨"WGSL function \"", "\" not found", by simp [String.append_assoc]⟩
  · constructor
    · rfl
    · exact ⟨"WGSL function \"", "\" not found", by decide⟩

theorem C3_witness :
    getFns ["doesNotExist"] = .error ("WGSL function \"" ++ "doesNotExist" ++ "\" not found") ∧
      containsText ("WGSL function \"" ++ "doesNotExist" ++ "\" not found") "doesNotExist" :=
  C3_unknown_name.1 ["doesNotExist"] [] "doesNotExist" (by decide) (by decide)

/-- C8.  `getFns []` on the empty request list returns the empty string
and does not fail. -/
theorem C8_empty_input : getFns [] = .ok "" := rfl

/-- C9.  The resolver terminates on every input: for every fuel at
least `resolverFuel`, every function name, and every initial visited
set — including in the presence of dependency cycles, which the visited
set guards against — the fuelled resolver succeeds and its result no
longer depends on the fuel; and `resolveAllDependencies` succeeds on
every request list. -/
theorem C9_resolver_terminates :
    (∀ fuel n s, resolverFuel ≤ fuel →
      resolveDependenciesF fuel n s = resolveDependencies n s ∧
        (resolveDependenciesF fuel n s).isSome) ∧
    ∀ names, (resolveAllDependencies names).isSome := by
  constructor
  · intro fuel n s h
    exact resolveDependenciesF_stable fuel n s h
  · intro names
    rw [resolveAllDependencies_eq]
    rfl

theorem C9_witness :
    (resolveDependenciesF 2000 "sdfDomainRepeat" [] =
        resolveDependencies "sdfDomainRepeat" [] ∧
      (resolveDependenciesF 2000 "sdfDomainRepeat" []).isSome) ∧
    (resolveAllDependencies ["sdfDomainRepeat", "doesNotExist"]).isSome :=
  ⟨C9_resolver_terminates.1 2000 "sdfDomainRepeat" [] (by decide),
   C9_resolver_terminates.2 ["sdfDomainRepeat", "doesNotExist"]⟩

/-- C10 (counterexample).  The claim asserts that passing one shared
visited set to a second `resolveDependencies` call suppresses every
dependency already visited by the first call.  It does not: after
resolving `noise2D` with a fresh set (visiting `noise2D` and `hash22`),
resolving `fbm2D` with the shared set returns `["noise2D"]` — the
already-visited dependency `noise2D` still appears in the second call's
result (only its expansion is suppressed). -/
theorem C10_counterexample :
    resolveDependencies "noise2D" [] = some (["hash22"], ["noise2D", "hash22"]) ∧
    resolveDependencies "fbm2D" ["noise2D", "hash22"] =
      some (["noise2D"], ["noise2D", "hash22", "fbm2D"]) ∧
    "noise2D" ∈ (["noise2D"] : List String) ∧
    "noise2D" ∈ (["noise2D", "hash22"] : List String) := by
  refine ⟨by decide, by decide, by decide, by decide⟩

/-- C10 (amended).  The visited set is part of `resolveDependencies`'
interface and is threaded through: if `n` is already in `s` the call
returns the empty list immediately with `s` unchanged; otherwise the
final set extends `s` and contains `n`; and sharing a set suppresses
re-expansion — every name in the result is a direct dependency of some
name newly expanded by this call, so nothing reachable only through
already-visited names is collected again (though a direct dependency
that happens to be already visited may still appear in the result). -/
theorem C10_visited_set :
    (∀ n s, s.contains n = true → resolveDependencies n s = some ([], s)) ∧
    (∀ n s r s', resolveDependencies n s = some (r, s') →
      s ⊆ s' ∧ n ∈ s' ∧
        ∀ x ∈ r, ∃ m, m ∈ s' ∧ m ∉ s ∧ x ∈ getDirectDependencies m) := by
  constructor
  · intro n s h
    unfold resolveDependencies resolveDependenciesF
    rw [if_pos h]
  · intro n s r s' h
    unfold resolveDependencies resolveDependenciesF at h
    by_cases hc : s.contains n
    · rw [if_pos hc] at h
      obtain ⟨h₁, h₂⟩ := Prod.mk.injEq .. ▸ Option.some.inj h
      subst h₁
      subst h₂
      exact ⟨fun x hx => hx, contains_iff.mp hc, fun x hx => absurd hx (by simp)⟩
    · rw [if_neg hc] at h
      have hns : n ∉ s := fun hm => hc (contains_iff.mpr hm)
      have hsub : s ++ [n] ⊆ s' := resolveGo_s_sub h
      refine ⟨fun x hx => hsub (List.mem_append.mpr (Or.inl hx)),
        hsub (List.mem_append.mpr (Or.inr (by simp))), ?_⟩
      intro x hx
      rcases resolveGo_pushers h x hx with hx' | hx' | ⟨m, hm1, hm2, hm3⟩
      · exact absurd hx' (by simp)
      · exact ⟨n, hsub (List.mem_append.mpr (Or.inr (by simp))), hns, hx'⟩
      · exact ⟨m, hm1, fun hm => hm2 (List.mem_append.mpr (Or.inl hm)), hm3⟩

theorem C10_witness :
    resolveDependencies "noise2D" ["noise2D"] = some ([], ["noise2D"]) ∧
    (["noise2D", "hash22"] : List String) ⊆ ["noise2D", "hash22", "fbm2D"] ∧
      "fbm2D" ∈ (["noise2D", "hash22", "fbm2D"] : List String) ∧
      ∀ x ∈ (["noise2D"] : List String), ∃ m, m ∈ (["noise2D", "hash22", "fbm2D"] : List String) ∧
        m ∉ (["noise2D", "hash22"] : List String) ∧ x ∈ getDirectDependencies m :=
  ⟨C10_visited_set.1 "noise2D" ["noise2D"] (by decide),
   C10_visited_set.2 "fbm2D" ["noise2D", "hash22"] ["noise2D"]
     ["noise2D", "hash22", "fbm2D"] (by decide)⟩
/-- C4.  For every request and every direct dependency edge `p → q`
with `p`'s definition in the combined output, the starting character
index of `q`'s definition in the output is strictly less than that of
`p`'s definition.  On this registry every request's dependency graph is
acyclic (witnessed by the rank function `rk`, see `rank_lt`), so the
claim's acyclicity proviso always holds. -/
theorem C4_ordering_invariant :
    ∀ names blocks p q, getFnsList names = .ok blocks →
      p ∈ allFunctionNames (mergedDeps names) names →
      q ∈ getDirectDependencies p →
      srcD p ∈ blocks ∧ srcD q ∈ blocks ∧
        defStart blocks (srcD q) < defStart blocks (srcD p) := by
  intro names blocks p q hok hp hq
  obtain ⟨hreq, rfl⟩ := getFnsList_ok_inv hok
  have hedge := blocks_edge_lt hreq hp hq
  exact ⟨mem_blocksOf.mpr ⟨p, hp, rfl⟩, hedge.1, defStart_lt hedge.2⟩

theorem C4_witness :
    srcD "fbm2D" ∈ blocksOf ["fbm2D"] ∧ srcD "noise2D" ∈ blocksOf ["fbm2D"] ∧
      defStart (blocksOf ["fbm2D"]) (srcD "noise2D") <
        defStart (blocksOf ["fbm2D"]) (srcD "fbm2D") :=
  C4_ordering_invariant ["fbm2D"] (blocksOf ["fbm2D"]) "fbm2D" "noise2D"
    (getFnsList_ok (by decide)) (by decide) (by decide)

/-- C5.  If two requested names share a common transitive dependency
`d` (`Reaches` is the transitive closure of the declared dependency
edges; a fresh resolver call computes exactly this set, see
`reaches_of_rdeps` and `rdeps_of_reaches`), the output of
`getFns [X, Y]` contains exactly one occurrence of `d`'s source text
among its emitted definition blocks, positioned before the definitions
of both `X` and `Y`. -/
theorem C5_shared_dependency :
    ∀ X Y d blocks, getFnsList [X, Y] = .ok blocks →
      Reaches X d → Reaches Y d →
      List.count (srcD d) blocks = 1 ∧
        defStart blocks (srcD d) < defStart blocks (srcD X) ∧
        defStart blocks (srcD d) < defStart blocks (srcD Y) := by
  intro X Y d blocks hok hX hY
  obtain ⟨hreq, rfl⟩ := getFnsList_ok_inv hok
  have hdX : d ∈ rdeps X := rdeps_of_reaches hX
  have hdmem : srcD d ∈ blocksOf [X, Y] :=
    mem_blocksOf.mpr ⟨d, mergedDeps_sub_allNames _
      (mem_mergedDeps.mpr ⟨X, by simp, hdX⟩), rfl⟩
  refine ⟨List.count_eq_one_of_mem (blocksOf_nodup _) hdmem, ?_, ?_⟩
  · exact defStart_lt (blocks_reach_lt hreq hX (mem_allNames_requested (by simp)))
  · exact defStart_lt (blocks_reach_lt hreq hY (mem_allNames_requested (by simp)))

theorem C5_witness :
    List.count (srcD "hash31") (blocksOf ["noise3D", "warpNoise3D"]) = 1 ∧
      defStart (blocksOf ["noise3D", "warpNoise3D"]) (srcD "hash31") <
        defStart (blocksOf ["noise3D", "warpNoise3D"]) (srcD "noise3D") ∧
      defStart (blocksOf ["noise3D", "warpNoise3D"]) (srcD "hash31") <
        defStart (blocksOf ["noise3D", "warpNoise3D"]) (srcD "warpNoise3D") :=
  C5_shared_dependency "noise3D" "warpNoise3D" "hash31" (blocksOf ["noise3D", "warpNoise3D"])
    (getFnsList_ok (by decide))
    (Reaches.base (by decide))
    (Reaches.step (m := "noise3D") (by decide) (Reaches.base (by decide)))

/-- C7.  Deduplication of emitted bodies is content-based: within one
`getFns` call, if two entries of the final ordered name list (two
positions, including a name requested twice or two distinct names with
identical source text) map to the same source text, that text occurs
exactly once in the emitted block list. -/
theorem C7_content_dedup :
    ∀ names blocks, getFnsList names = .ok blocks →
      ∀ i j (hi : i < (allFunctionNames (mergedDeps names) names).length)
        (hj : j < (allFunctionNames (mergedDeps names) names).length),
        i ≠ j →
        srcD ((allFunctionNames (mergedDeps names) names).get ⟨i, hi⟩) =
          srcD ((allFunctionNames (mergedDeps names) names).get ⟨j, hj⟩) →
        List.count
          (srcD ((allFunctionNames (mergedDeps names) names).get ⟨i, hi⟩)) blocks = 1 := by
  intro names blocks hok i j hi hj _ _
  obtain ⟨hreq, rfl⟩ := getFnsList_ok_inv hok
  exact List.count_eq_one_of_mem (blocksOf_nodup names)
    (mem_blocksOf.mpr ⟨_, List.get_mem _ _ _, rfl⟩)

theorem C7_witness :
    List.count
      (srcD ((allFunctionNames (mergedDeps ["elasticWave", "elasticWave"])
        ["elasticWave", "elasticWave"]).get ⟨0, by decide⟩))
      (blocksOf ["elasticWave", "elasticWave"]) = 1 :=
  C7_content_dedup ["elasticWave", "elasticWave"] (blocksOf ["elasticWave", "elasticWave"])
    (getFnsList_ok (by decide)) 0 1 (by decide) (by decide) (by decide) (by decide)
/-! ## Symbolic evaluation of a three-function chain -/

theorem resolveGo_nil_eq {f : Nat} {acc s : List String} :
    resolveGo f [] acc s = some (acc, s) := by
  cases f <;> rfl

theorem resolveGo_cons_eq {f : Nat} {d : String} {ds acc s : List String} :
    resolveGo (f + 1) (d :: ds) acc s =
      if s.contains d then resolveGo f ds (pushAbs acc d) s
      else
        match resolveGo f (getDirectDependencies d) [] (s ++ [d]) with
        | none => none
        | some (r, s') => resolveGo f ds (pushAbs (acc ++ r) d) s' := rfl

/-- C6.  For every three registry functions forming a chain — `f3` with
no declared dependencies, `f2` declaring only `f3`, `f1` declaring only
`f2` — `getFns ["f1"]` returns exactly the three source texts in
dependency order joined by the two-newline separator, with no leading
or trailing wrapper text. -/
theorem C6_chain_concatenation :
    ∀ f1 f2 f3 s1 s2 s3 : String,
      foundSrc f1 = some s1 → foundSrc f2 = some s2 → foundSrc f3 = some s3 →
      getDirectDependencies f1 = [f2] → getDirectDependencies f2 = [f3] →
      getDirectDependencies f3 = [] →
      getFns [f1] = .ok (s3 ++ "\n\n" ++ s2 ++ "\n\n" ++ s1) := by
  intro f1 f2 f3 s1 s2 s3 hf1 hf2 hf3 hg1 hg2 hg3
  have h23 : f2 ≠ f3 := by
    intro e
    rw [e, hg3] at hg2
    exact absurd hg2 (by simp)
  have h12 : f1 ≠ f2 := by
    intro e
    rw [e, hg2] at hg1
    injection hg1 with h _
    exact h23 h.symm
  have h13 : f1 ≠ f3 := by
    intro e
    rw [e, hg3] at hg1
    exact absurd hg1 (by simp)
  have p1 : parseDependencies s1 = [f2] := by
    have h := hg1
    unfold getDirectDependencies at h
    rw [hf1] at h
    exact h
  have p2 : parseDependencies s2 = [f3] := by
    have h := hg2
    unfold getDirectDependencies at h
    rw [hf2] at h
    exact h
  have p3 : parseDependencies s3 = [] := by
    have h := hg3
    unfold getDirectDependencies at h
    rw [hf3] at h
    exact h
  have hs23 : s2 ≠ s3 := by
    intro e
    rw [e, p3] at p2
    exact absurd p2 (by simp)
  have hs13 : s1 ≠ s3 := by
    intro e
    rw [e, p3] at p1
    exact absurd p1 (by simp)
  have hs12 : s1 ≠ s2 := by
    intro e
    rw [e, p2] at p1
    injection p1 with h _
    exact h23 h.symm
  have e3 : resolveGo 1 (getDirectDependencies f3) [] [f1, f2, f3] =
      some ([], [f1, f2, f3]) := by
    rw [hg3]
    exact resolveGo_nil_eq
  have e2 : resolveGo 2 (getDirectDependencies f2) [] [f1, f2] =
      some ([f3], [f1, f2, f3]) := by
    rw [hg2]
    show resolveGo (1 + 1) [f3] [] [f1, f2] = some ([f3], [f1, f2, f3])
    rw [resolveGo_cons_eq,
      if_neg (by rw [contains_iff]; simp [Ne.symm h13, Ne.symm h23]),
      show ([f1, f2] : List String) ++ [f3] = [f1, f2, f3] from rfl, e3]
    show resolveGo 1 [] (pushAbs ([] ++ []) f3) [f1, f2, f3] =
      some ([f3], [f1, f2, f3])
    exact resolveGo_nil_eq
  have e1 : resolveGo 3 (getDirectDependencies f1) [] [f1] =
      some ([f3, f2], [f1, f2, f3]) := by
    rw [hg1]
    show resolveGo (2 + 1) [f2] [] [f1] = some ([f3, f2], [f1, f2, f3])
    rw [resolveGo_cons_eq,
      if_neg (by rw [contains_iff]; simp [Ne.symm h12]),
      show ([f1] : List String) ++ [f2] = [f1, f2] from rfl, e2]
    show resolveGo 2 [] (pushAbs ([] ++ [f3]) f2) [f1, f2, f3] =
      some ([f3, f2], [f1, f2, f3])
    have hp : pushAbs ([] ++ [f3]) f2 = [f3, f2] := by
      rw [pushAbs_eq, if_neg (by simp [h23])]
      rfl
    rw [hp]
    exact resolveGo_nil_eq
  have er : resolveDependencies f1 [] = some ([f3, f2], [f1, f2, f3]) := by
    unfold resolveDependencies resolveDependenciesF
    rw [if_neg (by rw [contains_iff]; simp),
      show ([] : List String) ++ [f1] = [f1] from rfl]
    exact resolveGo_mono e1 resolverFuel (by decide)
  have hrd : rdeps f1 = [f3, f2] := by
    unfold rdeps
    rw [er]
    rfl
  have hmd : mergedDeps [f1] = [f3, f2] := by
    unfold mergedDeps
    simp only [List.foldl_cons, List.foldl_nil]
    rw [hrd]
    show pushAbs (pushAbs [] f3) f2 = [f3, f2]
    rw [show pushAbs [] f3 = [f3] from rfl, pushAbs_eq,
      if_neg (by simp [h23])]
    rfl
  have han : allFunctionNames (mergedDeps [f1]) [f1] = [f3, f2, f1] := by
    rw [hmd]
    unfold allFunctionNames
    have hc : ([f3, f2] : List String).contains f1 = false :=
      contains_eq_false_of_not_mem (by simp [h13, h12])
    simp [List.filter_cons, hc, h13, h12]
  have hemit : emitBlocks [f3, f2, f1] [] = .ok [s3, s2, s1] := by
    have c3 : ([] : List String).contains s3 = false := rfl
    have c2 : ([s3] : List String).contains s2 = false :=
      contains_eq_false_of_not_mem (by simp [hs23])
    have c1 : ([s3, s2] : List String).contains s1 = false :=
      contains_eq_false_of_not_mem (by simp [hs13, hs12])
    simp only [emitBlocks, hf3, hf2, hf1, c3, c2, c1, Bool.false_eq_true,
      if_false, List.nil_append, List.cons_append]
  have hlist : getFnsList [f1] = .ok [s3, s2, s1] := by
    have h' : getFnsList [f1] =
        emitBlocks (allFunctionNames (mergedDeps [f1]) [f1]) [] := by
      unfold getFnsList
      rw [resolveAllDependencies_eq]
    rw [h', han, hemit]
  unfold getFns
  rw [hlist]
  show Except.ok ((s3 ++ "\n\n") ++ ((s2 ++ "\n\n") ++ s1)) =
    Except.ok (s3 ++ "\n\n" ++ s2 ++ "\n\n" ++ s1)
  simp [String.append_assoc]

theorem C6_witness :
    getFns ["fbm2D"] = .ok (hash22 ++ "\n\n" ++ noise2D ++ "\n\n" ++ fbm2D) :=
  C6_chain_concatenation "fbm2D" "noise2D" "hash22" fbm2D noise2D hash22
    rfl rfl rfl (by decide) (by decide) (by decide)
end Wgsl
